import Mathlib

/-! Settings menu of BRLTTY (`Programs/menu.c`).

A shallow embedding of the menu engine: the item array with its navigation
cursor, the activation bookkeeping of `getCurrentMenuItem`, the bounded
stepping of `adjustMenuItem`, the scaled change of `changeMenuItemScaled`, and
the activation / deactivation hooks of the file-selection item.

Conventions of the embedding.

* A `MenuItem *` is the block of `menu->items.array` it points into together
  with the index inside it (`NULL` is `none`); `realloc` may return another
  block, after which pointers into the old block dangle.
* `unsigned char` cells are natural numbers, stored modulo 256; `unsigned int`
  arithmetic is taken modulo `2 ^ 32`.
* Every loop takes a fuel argument, one unit per iteration, and has no result
  when the fuel is used up (`none`, or `Outcome.outOfFuel`).
* A call that dereferences `NULL`, reads outside an array or divides by zero
  has no result (`none`, or `Outcome.fault` where fuel is present as well).
* Tester and `changed` callbacks are pure: a tester is the value it returns,
  a `changed` callback a predicate of the candidate setting.
* C strings are `String`s; `strcmp` compares them character by character by
  code point, which is the byte order of their UTF-8 encoding.
* Allocation succeeds unless a function takes an explicit flag for it; text
  localisation is the identity.
* `rescaleInteger` and `ensureExtension`, which this file calls and does not
  define, are parameters of the functions that call them.
* The platform configuration is the POSIX one: `HAVE_FCHDIR` and
  `HAVE_GLOB_H` defined, `GRUB_RUNTIME` not defined.
-/

namespace Brltty

/-! ## Data model -/

/-- Display strings of an item or of one of its values (`MenuString`). -/
structure MenuString where
  label : String
  comment : String
deriving DecidableEq, Repr

/-- State of a file-selection item (`FileData`).  The pair `paths`, `count`
of the source is the list `paths` (its length is `count`); the `setting`
cell of the source is the cell the owning item points to, kept in the item. -/
structure FileData where
  directory : String
  extension : String
  pattern : String
  initial : String
  current : Option String
  none : Bool
  paths : List String
deriving DecidableEq, Repr

/-- The `data` union of an item. -/
inductive ItemData where
  | empty
  | strings (strings : List MenuString)
  | files (files : FileData)
deriving DecidableEq, Repr

/-- Fields of `struct MenuItemStruct` other than the method table.  `test` is
`none` for a `NULL` tester and otherwise holds what the tester returns;
`changed` is the veto callback applied to the candidate setting. -/
structure MenuItemData where
  setting : Nat
  name : MenuString
  test : Option Bool
  changed : Option (Nat → Bool)
  minimum : Nat
  maximum : Nat
  divisor : Nat
  data : ItemData

/-- Which function a `getValue` pointer designates. -/
inductive GetValue where
  | getValue_numeric
  | getValue_strings
  | getValue_files
deriving DecidableEq, Repr

/-- Which function a `getComment` pointer designates. -/
inductive GetComment where
  | getComment_strings
deriving DecidableEq, Repr

/-- Method table of an item (`MenuItemMethods`).  A hook maps the item to the
item it leaves behind; `beginItem` also returns its status. -/
structure MenuItemMethods where
  beginItem : Option (MenuItemData → Option (MenuItemData × Bool))
  endItem : Option (MenuItemData → Bool → Option MenuItemData)
  getValue : GetValue
  getComment : Option GetComment

/-- An item of the menu: `struct MenuItemStruct`. -/
structure MenuItem extends MenuItemData where
  methods : MenuItemMethods

/-- A `MenuItem *`: the array block it points into, named by its address, and
the index inside that block. -/
structure ItemPtr where
  block : Nat
  index : Nat
deriving DecidableEq, Repr

/-- The menu: `struct MenuStruct`.  `array` is the block `items.array` points
to (0 for `NULL`), `items` its content `items.array[0 .. items.count)`, `size`
the allocated capacity, `index` the cursor. -/
structure Menu where
  array : Nat
  items : List MenuItem
  size : Nat
  index : Nat
  activeItem : Option ItemPtr

/-- The field `items.count`. -/
def Menu.count (menu : Menu) : Nat := menu.items.length

/-- A hook invocation made through `beginMenuItem` or `endMenuItem`. -/
inductive HookCall where
  | beginItem (item : ItemPtr)
  | endItem (item : ItemPtr) (deallocating : Bool)
deriving DecidableEq, Repr

/-- Result of a computation that may run out of fuel or fault. -/
inductive Outcome (α : Type) where
  | done (a : α)
  | fault
  | outOfFuel

/-! ## Menu container -/

/-- The function `newMenu`. -/
def newMenu : Menu :=
  { array := 0, items := [], size := 0, index := 0, activeItem := none }

/-- The function `getMenuItem`: the item pointer for `index`, `NULL` when out
of range. -/
def getMenuItem (menu : Menu) (index : Nat) : Option ItemPtr :=
  if index < menu.count then some { block := menu.array, index := index } else none

/-- The item an item pointer designates: nothing for a pointer into a block
other than the current one (a dangling pointer) or past the items in use. -/
def itemAt (menu : Menu) (item : ItemPtr) : Option MenuItem :=
  if item.block = menu.array then menu.items[item.index]? else none

/-- The function `testMenuItem`. -/
def testMenuItem (menu : Menu) (index : Nat) : Bool :=
  match getMenuItem menu index with
  | none => false
  | some p =>
    match itemAt menu p with
    | none => false
    | some item =>
      match item.test with
      | none => true
      | some r => r

/-- The function `newMenuItem`, generalised over what the public constructors
store in the fresh slot afterwards: the array grows when full, `item` lands at
index `count`.  `newArray` is what `realloc` returns when it is called: 0 for
`NULL`, the block it was given when the array grows in place, another block
when the array is moved and the old block freed.  `activeItem` is not
touched. -/
def newMenuItem (menu : Menu) (item : MenuItem) (newArray : Nat) : Menu × Option ItemPtr :=
  if menu.count = menu.size then
    let newSize := if menu.size ≠ 0 then (menu.size * 2) % 2 ^ 32 else 16
    if newArray = 0 then (menu, none)
    else
      ({ menu with array := newArray, items := menu.items ++ [item], size := newSize },
        some { block := newArray, index := menu.count })
  else ({ menu with items := menu.items ++ [item] },
    some { block := menu.array, index := menu.count })

/-! ## Navigation -/

/-- The function `setMenuPreviousItem`; one unit of fuel per iteration of
its `do ... while`. -/
def setMenuPreviousItem : Nat → Menu → Option (Menu × Bool)
  | 0, _ => none
  | fuel + 1, menu =>
    let menu1 := if menu.index = 0 then { menu with index := menu.count } else menu
    if menu1.index = 0 then some (menu1, false)
    else
      let menu2 := { menu1 with index := menu1.index - 1 }
      if testMenuItem menu2 menu2.index then some (menu2, true)
      else setMenuPreviousItem fuel menu2

/-- The `do ... while` of `setMenuNextItem`. -/
def setMenuNextItemLoop : Nat → Menu → Option Menu
  | 0, _ => none
  | fuel + 1, menu =>
    let menu1 :=
      if (menu.index + 1) % 2 ^ 32 = menu.count then { menu with index := 0 }
      else { menu with index := (menu.index + 1) % 2 ^ 32 }
    if testMenuItem menu1 menu1.index then some menu1
    else setMenuNextItemLoop fuel menu1

/-- The function `setMenuNextItem`. -/
def setMenuNextItem (fuel : Nat) (menu : Menu) : Option (Menu × Bool) :=
  if menu.index ≥ menu.count then some (menu, false)
  else (setMenuNextItemLoop fuel menu).map (fun m => (m, true))

/-- The function `setMenuFirstItem`. -/
def setMenuFirstItem (fuel : Nat) (menu : Menu) : Option (Menu × Bool) :=
  if menu.count = 0 then some (menu, false)
  else
    let menu1 := { menu with index := 0 }
    if testMenuItem menu1 menu1.index then some (menu1, true)
    else setMenuNextItem fuel menu1

/-- The function `setMenuLastItem`. -/
def setMenuLastItem (fuel : Nat) (menu : Menu) : Option (Menu × Bool) :=
  if menu.count = 0 then some (menu, false)
  else
    let menu1 := { menu with index := menu.count - 1 }
    if testMenuItem menu1 menu1.index then some (menu1, true)
    else setMenuPreviousItem fuel menu1

/-! ## Activation bookkeeping -/

/-- The function `beginMenuItem` on an item pointer of `menu`: the item without
a `beginItem` hook is left alone and reports success; a `NULL` or dangling
pointer cannot be dereferenced. -/
def beginMenuItem (menu : Menu) (item : Option ItemPtr) :
    Option (Menu × Bool × List HookCall) :=
  match item with
  | none => none
  | some p =>
    match itemAt menu p with
    | none => none
    | some it =>
      match it.methods.beginItem with
      | none => some (menu, true, [])
      | some hook =>
        match hook it.toMenuItemData with
        | none => none
        | some (d, status) =>
          some ({ menu with items := menu.items.set p.index { it with toMenuItemData := d } },
            status, [HookCall.beginItem p])

/-- The function `endMenuItem` on an item pointer of `menu`; a dangling pointer
cannot be dereferenced. -/
def endMenuItem (menu : Menu) (item : ItemPtr) (deallocating : Bool) :
    Option (Menu × List HookCall) :=
  match itemAt menu item with
  | none => none
  | some it =>
    match it.methods.endItem with
    | none => some (menu, [])
    | some hook =>
      match hook it.toMenuItemData deallocating with
      | none => none
      | some d =>
        some ({ menu with items := menu.items.set item.index { it with toMenuItemData := d } },
          [HookCall.endItem item deallocating])

/-- The function `getCurrentMenuItem`: the menu afterwards, the returned item
pointer and the hook invocations in the order they were made. -/
def getCurrentMenuItem (menu : Menu) : Option (Menu × Option ItemPtr × List HookCall) :=
  let newItem := getMenuItem menu menu.index
  let oldItem := menu.activeItem
  if newItem ≠ oldItem then
    let ended : Option (Menu × List HookCall) :=
      match oldItem with
      | none => some (menu, [])
      | some old => endMenuItem menu old false
    match ended with
    | none => none
    | some (menu1, calls1) =>
      match beginMenuItem menu1 newItem with
      | none => none
      | some (menu2, status, calls2) =>
        some ({ menu2 with activeItem := if status then newItem else none }, newItem,
          calls1 ++ calls2)
  else some (menu, newItem, [])

/-! ## Adjustment -/

/-- The function `decrementMenuItem`. -/
def decrementMenuItem (item : MenuItemData) : MenuItemData :=
  if item.setting ≤ item.minimum then { item with setting := item.maximum }
  else { item with setting := (item.setting + 255) % 256 }

/-- The function `incrementMenuItem`. -/
def incrementMenuItem (item : MenuItemData) : MenuItemData :=
  if item.setting ≥ item.maximum then { item with setting := item.minimum }
  else { item with setting := (item.setting + 1) % 256 }

/-- Whether the `changed` callback, if any, rejects `setting`:
`item->changed && !item->changed(item, setting)`. -/
def vetoed (item : MenuItemData) (setting : Nat) : Bool :=
  match item.changed with
  | none => false
  | some changed => !changed setting

/-- The `do ... while` of `adjustMenuItem` with its counter `count`; one unit
of fuel per iteration.  The remainder by a zero divisor is a fault. -/
def adjustMenuItemLoop (adjust : MenuItemData → MenuItemData) :
    Nat → Int → MenuItemData → Outcome (MenuItemData × Int)
  | 0, _, _ => Outcome.outOfFuel
  | fuel + 1, count, item =>
    let item1 := adjust item
    let count1 := count - 1
    if count1 = 0 then Outcome.done (item1, count1)
    else if item1.divisor = 0 then Outcome.fault
    else if item1.setting % item1.divisor ≠ 0 ∨ vetoed item1 item1.setting = true then
      adjustMenuItemLoop adjust fuel count1 item1
    else Outcome.done (item1, count1)

/-- The function `adjustMenuItem`: the item afterwards and the status
`!!count`. -/
def adjustMenuItem (fuel : Nat) (item : MenuItemData)
    (adjust : MenuItemData → MenuItemData) : Outcome (MenuItemData × Bool) :=
  match adjustMenuItemLoop adjust fuel ((item.maximum : Int) - (item.minimum : Int) + 1) item with
  | Outcome.done (item1, count) => Outcome.done (item1, decide (count ≠ 0))
  | Outcome.fault => Outcome.fault
  | Outcome.outOfFuel => Outcome.outOfFuel

/-- The function `changeMenuItemPrevious`. -/
def changeMenuItemPrevious (fuel : Nat) (item : MenuItemData) : Outcome (MenuItemData × Bool) :=
  adjustMenuItem fuel item decrementMenuItem

/-- The function `changeMenuItemNext`. -/
def changeMenuItemNext (fuel : Nat) (item : MenuItemData) : Outcome (MenuItemData × Bool) :=
  adjustMenuItem fuel item incrementMenuItem

/-- An `unsigned int` argument converted to an `int` parameter. -/
def toInt (n : Nat) : Int :=
  if n % 2 ^ 32 < 2 ^ 31 then ((n % 2 ^ 32 : Nat) : Int) else ((n % 2 ^ 32 : Nat) : Int) - 2 ^ 32

/-- The value `changeMenuItemScaled` stores before it consults the `changed`
callback.  `rescaleInteger` is the helper of that name, which this file only
calls: `rescaleInteger value from to`, without a result when it faults. -/
def scaledSetting (rescaleInteger : Int → Int → Int → Option Int) (item : MenuItem)
    (index count : Nat) : Option Nat :=
  if item.methods.getValue = GetValue.getValue_numeric then
    (rescaleInteger (toInt index) (toInt ((count + (2 ^ 32 - 1)) % 2 ^ 32))
        ((item.maximum : Int) - (item.minimum : Int))).map
      (fun r => ((r + (item.minimum : Int)) % 256).toNat)
  else some (index % (item.maximum + 1) % 256)

/-- The function `changeMenuItemScaled`. -/
def changeMenuItemScaled (rescaleInteger : Int → Int → Int → Option Int) (item : MenuItem)
    (index count : Nat) : Option (MenuItem × Bool) :=
  let oldSetting := item.setting
  match scaledSetting rescaleInteger item index count with
  | none => none
  | some setting =>
    if vetoed item.toMenuItemData setting = true then
      some ({ item with setting := oldSetting }, false)
    else some ({ item with setting := setting }, true)

/-- The table `stringsMenuItemMethods`. -/
def stringsMenuItemMethods : MenuItemMethods :=
  { beginItem := none, endItem := none, getValue := GetValue.getValue_strings
    getComment := some GetComment.getComment_strings }

/-- The function `setMenuItemStrings`; `count` is an `unsigned char`. -/
def setMenuItemStrings (item : MenuItem) (strings : List MenuString) (count : Nat) : MenuItem :=
  { item with
    methods := stringsMenuItemMethods
    data := ItemData.strings strings
    minimum := 0
    maximum := (((count : Int) - 1) % 256).toNat
    divisor := 1 }

/-- The function `newStringsMenuItem`: the slot initialised by `newMenuItem`,
then `setMenuItemStrings`. -/
def newStringsMenuItem (menu : Menu) (setting : Nat) (name : MenuString)
    (strings : List MenuString) (count : Nat) (newArray : Nat) :
    Menu × Option ItemPtr :=
  newMenuItem menu
    (setMenuItemStrings
      { setting := setting, name := name, test := none, changed := none
        minimum := 0, maximum := 0, divisor := 1, data := ItemData.empty
        methods := stringsMenuItemMethods } strings count)
    newArray

/-! ## File-selection item -/

/-- Character-wise comparison behind `strcmp`. -/
def strcmpChars : List Char → List Char → Int
  | [], [] => 0
  | [], _ :: _ => -1
  | _ :: _, [] => 1
  | a :: as, b :: bs =>
    if a.toNat < b.toNat then -1
    else if b.toNat < a.toNat then 1
    else strcmpChars as bs

/-- The library function `strcmp`, up to the magnitude of a non-zero result. -/
def strcmp (s1 s2 : String) : Int := strcmpChars s1.toList s2.toList

/-- The comparison `qsortCompare_fileNames`. -/
def qsortCompare_fileNames (name1 name2 : String) : Int := strcmp name1 name2

/-- The call `qsort(..., qsortCompare_fileNames)`: the names in ascending order
of the comparison. -/
def qsort_fileNames (names : List String) : List String :=
  names.insertionSort (fun a b => qsortCompare_fileNames a b ≤ 0)

/-- Answers of the operating system to the calls of `beginItem_files`:
`chdir cwd directory` is the working directory after a successful `chdir`,
`glob cwd pattern` the matches of a `glob` that returns 0. -/
structure FileSystem where
  openOk : Bool
  chdir : String → String → Option String
  glob : String → String → Option (List String)
  fchdirOk : Bool

/-- A system call made by `beginItem_files`. -/
inductive Syscall where
  | openCwd
  | chdir (directory : String)
  | glob (pattern : String)
  | fchdir
  | close
deriving DecidableEq, Repr

/-- Process state `beginItem_files` acts on: the working directory, the
system calls made so far and the diagnostics logged so far. -/
structure Process where
  cwd : String
  calls : List Syscall
  log : List String
deriving DecidableEq, Repr

/-- Lines 334-409 of `beginItem_files`: the names found behind the two reserved
slots (`paths[2 .. count)`), none when a step fails. -/
def enumerateFiles (fs : FileSystem) (proc : Process) (files : FileData) :
    Process × List String :=
  let proc1 := { proc with calls := proc.calls ++ [Syscall.openCwd] }
  if fs.openOk then
    let proc2 := { proc1 with calls := proc1.calls ++ [Syscall.chdir files.directory] }
    match fs.chdir proc.cwd files.directory with
    | some dir =>
      let proc3 := { proc2 with cwd := dir, calls := proc2.calls ++ [Syscall.glob files.pattern] }
      let names :=
        match fs.glob dir files.pattern with
        | some found => found
        | none => []
      let proc4 := { proc3 with calls := proc3.calls ++ [Syscall.fchdir] }
      let proc5 :=
        if fs.fchdirOk then { proc4 with cwd := proc.cwd }
        else { proc4 with log := proc4.log ++ ["fchdir"] }
      ({ proc5 with calls := proc5.calls ++ [Syscall.close] }, names)
    | none =>
      ({ proc2 with calls := proc2.calls ++ [Syscall.close],
                    log := proc2.log ++ ["cannot set working directory"] }, [])
  else ({ proc1 with log := proc1.log ++ ["cannot open working directory"] }, [])

/-- Lines 411-415 of `beginItem_files`: the sorted names with the `initial`
entry stored in the slot before them, after the empty entry when `none` is
set; the list starts at the last slot written. -/
def splicePaths (files : FileData) (names : List String) : List String :=
  let sorted := qsort_fileNames names
  let withNone := if files.none then "" :: sorted else sorted
  files.initial :: withNone

/-- Lines 418-424 of `beginItem_files`: when an entry from index 1 on equals
`initial`, the list starts one entry later. -/
def dropInitial (files : FileData) (paths : List String) : List String :=
  if (paths.drop 1).any (fun p => decide (strcmp p files.initial = 0)) then paths.drop 1
  else paths

/-- Lines 416 and 426-431 of `beginItem_files`: the value stored in the
`unsigned char` cell `setting`. -/
def findCurrent (paths : List String) (current : String) : Nat :=
  match paths.findIdx? (fun p => decide (strcmp p current = 0)) with
  | some index => index % 256
  | none => 0

/-- The function `beginItem_files`. -/
def beginItem_files (fs : FileSystem) (proc : Process) (item : MenuItemData) :
    Process × Option (MenuItemData × Bool) :=
  match item.data with
  | ItemData.files files =>
    let (proc1, names) := enumerateFiles fs proc files
    let paths := dropInitial files (splicePaths files names)
    match files.current with
    | none => (proc1, none)
    | some current =>
      (proc1, some ({ item with
          setting := findCurrent paths current
          maximum := (((paths.length : Int) - 1) % 256).toNat
          data := ItemData.files { files with paths := paths } }, true))
  | _ => (proc, none)

/-- The function `endItem_files`; the freed `paths` keep their value. -/
def endItem_files (item : MenuItemData) (deallocating : Bool) : Option MenuItemData :=
  match item.data with
  | ItemData.files files =>
    if deallocating then
      some { item with data := ItemData.files { files with current := none } }
    else
      match files.paths[item.setting]? with
      | none => none
      | some path => some { item with data := ItemData.files { files with current := some path } }
  | _ => none

/-- The function `getValue_files`; `active` tells whether the item is the
active item of its menu.  A read outside the candidate list has no result. -/
def getValue_files (item : MenuItemData) (active : Bool) : Option String :=
  match item.data with
  | ItemData.files files =>
    if active then files.paths[item.setting]?
    else
      match files.current with
      | some path => some path
      | none => some ""
  | _ => none

/-- The table `filesMenuItemMethods`, for hooks run against `fs` from the
process state `proc`. -/
def filesMenuItemMethods (fs : FileSystem) (proc : Process) : MenuItemMethods :=
  { beginItem := some (fun item => (beginItem_files fs proc item).2)
    endItem := some endItem_files
    getValue := GetValue.getValue_files
    getComment := none }

/-- The fields `newFilesMenuItem` stores in the fresh item: `initial` gets its
extension through `ensureExtension` unless it is empty, `current` is a copy of
it, the pattern is `*` followed by the extension, the rest is zeroed or set by
`newMenuItem`. -/
def filesMenuItemData (name : MenuString) (directory extension initial : String) (none : Bool)
    (ensureExtension : String → String → String) : MenuItemData :=
  let initial1 := if initial ≠ "" then ensureExtension initial extension else ""
  { setting := 0, name := name, test := Option.none, changed := Option.none
    minimum := 0, maximum := 0, divisor := 1
    data := ItemData.files
      { directory := directory, extension := extension, pattern := "*" ++ extension
        initial := initial1, current := some initial1, none := none, paths := [] } }

/-- The item `newFilesMenuItem` stores. -/
def filesMenuItem (fs : FileSystem) (proc : Process) (name : MenuString)
    (directory extension initial : String) (none : Bool)
    (ensureExtension : String → String → String) : MenuItem :=
  { toMenuItemData := filesMenuItemData name directory extension initial none ensureExtension
    methods := filesMenuItemMethods fs proc }

/-- The function `newFilesMenuItem`. -/
def newFilesMenuItem (fs : FileSystem) (proc : Process) (menu : Menu) (name : MenuString)
    (directory extension initial : String) (none : Bool)
    (ensureExtension : String → String → String) (newArray : Nat) :
    Menu × Option ItemPtr :=
  newMenuItem menu (filesMenuItem fs proc name directory extension initial none ensureExtension)
    newArray

/-! ## Vocabulary of the statements -/

/-- An item is eligible when it has no tester or its tester returns true. -/
def eligible (item : MenuItem) : Prop :=
  item.test = none ∨ item.test = some true

/-- Cursor after the increment of `setMenuNextItem`. -/
def nextIndex (menu : Menu) : Nat :=
  if (menu.index + 1) % 2 ^ 32 = menu.count then 0 else (menu.index + 1) % 2 ^ 32

/-- Cursor after the decrement of `setMenuPreviousItem`, for a cursor that
was not left at zero. -/
def previousIndex (menu : Menu) : Nat :=
  (if menu.index = 0 then menu.count else menu.index) - 1

/-- The stepping condition: `setting` is a multiple of the divisor and the
`changed` callback, if any, accepts it. -/
def accepts (item : MenuItemData) (setting : Nat) : Prop :=
  setting % item.divisor = 0 ∧ vetoed item setting = false

/-- An adjustment step touches the setting only. -/
def SettingOnly (adjust : MenuItemData → MenuItemData) : Prop :=
  ∀ item, adjust item = { item with setting := (adjust item).setting }

/-- Setting after `j` increments from `item`, for `j` up to the size of the
range. -/
def incrementedSetting (item : MenuItemData) (j : Nat) : Nat :=
  if item.setting + j ≤ item.maximum then item.setting + j
  else item.setting + j - (item.maximum - item.minimum + 1)

/-- Setting after `j` decrements from `item`, for `j` up to the size of the
range. -/
def decrementedSetting (item : MenuItemData) (j : Nat) : Nat :=
  if item.minimum + j ≤ item.setting then item.setting - j
  else item.setting + (item.maximum - item.minimum + 1) - j

/-- Menu states reachable from `newMenu` by item appends, navigation calls that
return, and `getCurrentMenuItem` calls that return. -/
inductive Reachable : Menu → Prop where
  | newMenu : Reachable newMenu
  | append (menu : Menu) (item : MenuItem) (newArray : Nat) :
      Reachable menu → Reachable (newMenuItem menu item newArray).1
  | first (menu result : Menu) (fuel : Nat) (status : Bool) :
      Reachable menu → setMenuFirstItem fuel menu = some (result, status) → Reachable result
  | last (menu result : Menu) (fuel : Nat) (status : Bool) :
      Reachable menu → setMenuLastItem fuel menu = some (result, status) → Reachable result
  | next (menu result : Menu) (fuel : Nat) (status : Bool) :
      Reachable menu → setMenuNextItem fuel menu = some (result, status) → Reachable result
  | previous (menu result : Menu) (fuel : Nat) (status : Bool) :
      Reachable menu → setMenuPreviousItem fuel menu = some (result, status) → Reachable result
  | current (menu result : Menu) (item : Option ItemPtr) (calls : List HookCall) :
      Reachable menu → getCurrentMenuItem menu = some (result, item, calls) → Reachable result

/-- What a navigation call leaves alone: the items, the capacity, the active
item and the array block. -/
def SameItems (menu result : Menu) : Prop :=
  result.items = menu.items ∧ result.size = menu.size ∧
  result.activeItem = menu.activeItem ∧ result.array = menu.array

/-- The candidate list of a file-selection item. -/
def candidatePaths (item : MenuItemData) : List String :=
  match item.data with
  | ItemData.files files => files.paths
  | _ => []

/-- The committed value of a file-selection item. -/
def currentValue (item : MenuItemData) : Option String :=
  match item.data with
  | ItemData.files files => files.current
  | _ => none

/-- The candidate list `beginItem_files` leaves in the item. -/
def activatedPaths (fs : FileSystem) (proc : Process) (item : MenuItemData) :
    Option (List String) :=
  (beginItem_files fs proc item).2.map (fun r => candidatePaths r.1)

/-- The cursor `j` steps after `c` on a menu of `count` items, wrapping from
the last item to the first; for `c < count` and `j ≤ count`. -/
def wrapForward (count c j : Nat) : Nat :=
  if c + j < count then c + j else c + j - count

/-- The cursor `j` steps before `c` on a menu of `count` items, wrapping from
the first item to the last; for `c < count` and `j ≤ count`. -/
def wrapBackward (count c j : Nat) : Nat :=
  if j ≤ c then c - j else c + count - j

/-- The value met after `j` steps of walking upward from the setting of `item`
through its bounds, the maximum wrapping to the minimum. -/
def walkUp (item : MenuItemData) : Nat → Nat
  | 0 => item.setting
  | j + 1 => if walkUp item j ≥ item.maximum then item.minimum else walkUp item j + 1

/-- The value met after `j` steps of walking downward from the setting of
`item` through its bounds, the minimum wrapping to the maximum. -/
def walkDown (item : MenuItemData) : Nat → Nat
  | 0 => item.setting
  | j + 1 => if walkDown item j ≤ item.minimum then item.maximum else walkDown item j - 1

/-- The setting and the bounds of an active file-selection item index inside
its candidate list and fit their `unsigned char` cells. -/
def InBounds (item : MenuItemData) : Prop :=
  item.setting < (candidatePaths item).length ∧ item.setting < 256 ∧
  item.maximum < (candidatePaths item).length ∧ item.maximum < 256 ∧ item.minimum = 0

/-- Items reached from `start` by `changeMenuItemNext`, `changeMenuItemPrevious`
and `changeMenuItemScaled` calls that return. -/
inductive SteppedFrom (rescaleInteger : Int → Int → Int → Option Int) (start : MenuItem) :
    MenuItem → Prop where
  | start : SteppedFrom rescaleInteger start start
  | next (item : MenuItem) (result : MenuItemData) (fuel : Nat) (status : Bool) :
      SteppedFrom rescaleInteger start item →
      changeMenuItemNext fuel item.toMenuItemData = Outcome.done (result, status) →
      SteppedFrom rescaleInteger start { item with toMenuItemData := result }
  | previous (item : MenuItem) (result : MenuItemData) (fuel : Nat) (status : Bool) :
      SteppedFrom rescaleInteger start item →
      changeMenuItemPrevious fuel item.toMenuItemData = Outcome.done (result, status) →
      SteppedFrom rescaleInteger start { item with toMenuItemData := result }
  | scaled (item result : MenuItem) (index count : Nat) (status : Bool) :
      SteppedFrom rescaleInteger start item →
      changeMenuItemScaled rescaleInteger item index count = some (result, status) →
      SteppedFrom rescaleInteger start result

/-- The cursor is on an item, or the menu is empty and the cursor is 0. -/
def CursorOk (menu : Menu) : Prop :=
  menu.index < menu.count ∨ (menu.count = 0 ∧ menu.index = 0)

/-- The pointer to the item at the cursor. -/
def cursorPtr (menu : Menu) : ItemPtr := { block := menu.array, index := menu.index }

/-! ## Example data -/

/-- The method table `numericMenuItemMethods`. -/
def numericMenuItemMethods : MenuItemMethods :=
  { beginItem := none, endItem := none, getValue := GetValue.getValue_numeric, getComment := none }

/-- A numeric item with the given tester result, setting 0 in the range 0..9. -/
def sampleItem (test : Option Bool) : MenuItem :=
  { setting := 0, name := { label := "item", comment := "" }, test := test, changed := none
    minimum := 0, maximum := 9, divisor := 1, data := ItemData.empty
    methods := numericMenuItemMethods }

/-- A menu over sample items with the given tester results and cursor. -/
def sampleMenu (tests : List (Option Bool)) (index : Nat) : Menu :=
  { array := 1, items := tests.map sampleItem, size := 16, index := index, activeItem := none }

/-- An item for stepping examples: setting, bounds, divisor and callback. -/
def sampleSetting (setting minimum maximum divisor : Nat) (changed : Option (Nat → Bool)) :
    MenuItemData :=
  { setting := setting, name := { label := "item", comment := "" }, test := none
    changed := changed, minimum := minimum, maximum := maximum, divisor := divisor
    data := ItemData.empty }

/-- A file system whose directories can all be entered and whose `glob`
answers `listing`. -/
def sampleFs (listing : Option (List String)) : FileSystem :=
  { openOk := true, chdir := fun _ directory => some directory
    glob := fun _ _ => listing, fchdirOk := true }

/-- A file system in which no directory can be entered. -/
def unreadableFs : FileSystem :=
  { openOk := true, chdir := fun _ _ => none
    glob := fun _ _ => some ["other.cfg"], fchdirOk := true }

/-- A process in `/home`. -/
def sampleProcess : Process := { cwd := "/home", calls := [], log := [] }

/-- A freshly constructed file-selection item; the initial name already
carries the extension. -/
def sampleFilesItem (initial : String) (none : Bool) : MenuItemData :=
  filesMenuItemData { label := "Text Table", comment := "" } "/etc/brltty" ".cfg" initial none
    (fun path _ => path)

/-- The 256 two-letter names `aa`, `ab`, ..., `pp`, in ascending order. -/
def manyNames : List String :=
  (List.range 256).map (fun n => String.mk [Char.ofNat (97 + n / 16), Char.ofNat (97 + n % 16)])

/-- An enumerated item with three values, setting 0 and the given callback. -/
def sampleStringsItem (changed : Option (Nat → Bool)) : MenuItem :=
  setMenuItemStrings
    { setting := 0, name := { label := "Cursor Style", comment := "" }, test := none
      changed := changed, minimum := 0, maximum := 0, divisor := 1, data := ItemData.empty
      methods := stringsMenuItemMethods }
    [{ label := "Underline", comment := "" }, { label := "Block", comment := "" },
     { label := "None", comment := "" }] 3

/-- A `rescaleInteger` for examples: `to * value / from`, faulting on a zero
`from`. -/
def sampleRescale (value source target : Int) : Option Int :=
  if source = 0 then none else some (target * value / source)

/-- A file system in which the directory can be entered and listed, and the
return to the saved working directory fails. -/
def stuckFs : FileSystem :=
  { openOk := true, chdir := fun _ directory => some directory
    glob := fun _ _ => some ["foo.cfg"], fchdirOk := false }

/-- A menu of `n` sample items in the first block of 16 slots, cursor on the
first item. -/
def filledMenu (n : Nat) (active : Option ItemPtr) : Menu :=
  { array := 1, items := List.replicate n (sampleItem none), size := 16, index := 0
    activeItem := active }

/-- The menu after 16 appends, a `getCurrentMenuItem` call and a 17th append
whose `realloc` returns another block: the active item points into the freed
block. -/
def staleMenu : Menu :=
  { array := 2, items := List.replicate 17 (sampleItem none), size := 32, index := 0
    activeItem := some { block := 1, index := 0 } }

/-- The menu after two appends, a `getCurrentMenuItem` call and a
`setMenuNextItem` call: the first item is active, the cursor is on the
second. -/
def movedOnMenu : Menu :=
  { array := 1, items := [sampleItem none, sampleItem none], size := 16, index := 1
    activeItem := some { block := 1, index := 0 } }

/-! ## Navigation: facts shared by the proofs -/

theorem itemAt_current (menu : Menu) (i : Nat) :
    itemAt menu { block := menu.array, index := i } = menu.items[i]? := by
  unfold itemAt
  rw [if_pos rfl]

theorem testMenuItem_def (menu : Menu) (i : Nat) :
    testMenuItem menu i =
      if i < menu.count then
        match menu.items[i]? with
        | none => false
        | some item =>
          match item.test with
          | none => true
          | some r => r
      else false := by
  unfold testMenuItem getMenuItem
  by_cases hi : i < menu.count
  · rw [if_pos hi, if_pos hi]
    simp only
    rw [itemAt_current]
  · rw [if_neg hi, if_neg hi]

theorem testMenuItem_items (m1 m2 : Menu) (h : m1.items = m2.items) (i : Nat) :
    testMenuItem m1 i = testMenuItem m2 i := by
  rw [testMenuItem_def, testMenuItem_def]
  unfold Menu.count
  rw [h]

theorem testMenuItem_lt (menu : Menu) (i : Nat) (h : testMenuItem menu i = true) :
    i < menu.count := by
  rw [testMenuItem_def] at h
  by_cases hi : i < menu.count
  · exact hi
  · simp [hi] at h

theorem testMenuItem_of_ineligible (menu : Menu)
    (h : ∀ it ∈ menu.items, it.test = some false) (i : Nat) :
    testMenuItem menu i = false := by
  rw [testMenuItem_def]
  by_cases hi : i < menu.count
  · have hi2 : i < menu.items.length := hi
    simp only [hi, if_true]
    rw [List.getElem?_eq_getElem hi2]
    simp only
    rw [h _ (List.getElem_mem hi2)]
  · simp [hi]

theorem testMenuItem_mk_ineligible (items : List MenuItem)
    (h : ∀ it ∈ items, it.test = some false) (array size index : Nat)
    (active : Option ItemPtr) (i : Nat) :
    testMenuItem
      { array := array, items := items, size := size, index := index, activeItem := active } i
      = false :=
  testMenuItem_of_ineligible
    { array := array, items := items, size := size, index := index, activeItem := active } h i

theorem setMenuNextItemLoop_ineligible (fuel : Nat) :
    ∀ menu : Menu, (∀ it ∈ menu.items, it.test = some false) →
      setMenuNextItemLoop fuel menu = none := by
  induction fuel with
  | zero => intro menu _; rfl
  | succ n ih =>
    intro menu h
    unfold setMenuNextItemLoop
    simp only
    split
    · rw [testMenuItem_mk_ineligible _ h]
      simp only [Bool.false_eq_true, if_false]
      exact ih _ h
    · rw [testMenuItem_mk_ineligible _ h]
      simp only [Bool.false_eq_true, if_false]
      exact ih _ h

theorem setMenuPreviousItem_ineligible (fuel : Nat) :
    ∀ menu : Menu, menu.count ≠ 0 → (∀ it ∈ menu.items, it.test = some false) →
      setMenuPreviousItem fuel menu = none := by
  induction fuel with
  | zero => intro menu _ _; rfl
  | succ n ih =>
    intro menu hc h
    unfold setMenuPreviousItem
    simp only
    by_cases h0 : menu.index = 0
    · simp only [h0, if_true]
      rw [if_neg hc]
      rw [testMenuItem_mk_ineligible _ h]
      simp only [Bool.false_eq_true, if_false]
      exact ih _ hc h
    · simp only [h0, if_false]
      rw [testMenuItem_mk_ineligible _ h]
      simp only [Bool.false_eq_true, if_false]
      exact ih _ hc h

theorem testMenuItem_true (menu : Menu) (i : Nat) (h : testMenuItem menu i = true) :
    i < menu.count ∧ ∃ item, menu.items[i]? = some item ∧ eligible item := by
  have hi : i < menu.count := testMenuItem_lt menu i h
  have hi2 : i < menu.items.length := hi
  refine ⟨hi, menu.items[i], List.getElem?_eq_getElem hi2, ?_⟩
  rw [testMenuItem_def] at h
  simp only [hi, if_true] at h
  rw [List.getElem?_eq_getElem hi2] at h
  simp only at h
  unfold eligible
  cases ht : (menu.items[i]).test with
  | none => exact Or.inl rfl
  | some r =>
    rw [ht] at h
    simp only at h
    rw [h]
    exact Or.inr rfl

theorem setMenuNextItemLoop_succ (n : Nat) (menu : Menu) :
    setMenuNextItemLoop (n + 1) menu =
      if testMenuItem { menu with index := nextIndex menu } (nextIndex menu) = true
      then some { menu with index := nextIndex menu }
      else setMenuNextItemLoop n { menu with index := nextIndex menu } := by
  unfold nextIndex
  rw [setMenuNextItemLoop]
  split <;> rfl

theorem setMenuPreviousItem_succ (n : Nat) (menu : Menu) :
    setMenuPreviousItem (n + 1) menu =
      if menu.index = 0 ∧ menu.count = 0 then some ({ menu with index := 0 }, false)
      else if testMenuItem { menu with index := previousIndex menu } (previousIndex menu) = true
      then some ({ menu with index := previousIndex menu }, true)
      else setMenuPreviousItem n { menu with index := previousIndex menu } := by
  unfold previousIndex
  rw [setMenuPreviousItem]
  simp only
  by_cases h0 : menu.index = 0
  · by_cases hc : menu.count = 0
    · simp [h0, hc]
    · simp [h0, hc]
  · simp [h0]

theorem setMenuNextItemLoop_some (fuel : Nat) :
    ∀ menu result : Menu, setMenuNextItemLoop fuel menu = some result →
      result.items = menu.items ∧ testMenuItem result result.index = true := by
  induction fuel with
  | zero => intro menu result h; simp [setMenuNextItemLoop] at h
  | succ n ih =>
    intro menu result h
    rw [setMenuNextItemLoop_succ] at h
    by_cases ht : testMenuItem { menu with index := nextIndex menu } (nextIndex menu) = true
    · rw [if_pos ht] at h
      cases h
      exact ⟨rfl, ht⟩
    · rw [if_neg ht] at h
      exact ih { menu with index := nextIndex menu } result h

theorem setMenuPreviousItem_some (fuel : Nat) :
    ∀ menu result : Menu, setMenuPreviousItem fuel menu = some (result, true) →
      result.items = menu.items ∧ testMenuItem result result.index = true := by
  induction fuel with
  | zero => intro menu result h; simp [setMenuPreviousItem] at h
  | succ n ih =>
    intro menu result h
    rw [setMenuPreviousItem_succ] at h
    by_cases h0 : menu.index = 0 ∧ menu.count = 0
    · rw [if_pos h0] at h
      simp at h
    · rw [if_neg h0] at h
      by_cases ht :
          testMenuItem { menu with index := previousIndex menu } (previousIndex menu) = true
      · rw [if_pos ht] at h
        simp only [Option.some.injEq, Prod.mk.injEq, and_true] at h
        subst h
        exact ⟨rfl, ht⟩
      · rw [if_neg ht] at h
        exact ih { menu with index := previousIndex menu } result h

theorem setMenuNextItem_some (fuel : Nat) (menu result : Menu)
    (h : setMenuNextItem fuel menu = some (result, true)) :
    result.items = menu.items ∧ testMenuItem result result.index = true := by
  unfold setMenuNextItem at h
  split at h
  · simp at h
  · cases hl : setMenuNextItemLoop fuel menu with
    | none => rw [hl] at h; simp at h
    | some m =>
      rw [hl] at h
      simp only [Option.map_some', Option.some.injEq, Prod.mk.injEq, and_true] at h
      subst h
      exact setMenuNextItemLoop_some fuel menu m hl

theorem setMenuFirstItem_some (fuel : Nat) (menu result : Menu)
    (h : setMenuFirstItem fuel menu = some (result, true)) :
    result.items = menu.items ∧ testMenuItem result result.index = true := by
  unfold setMenuFirstItem at h
  split at h
  · simp at h
  · simp only at h
    split at h
    · rename_i ht
      simp only [Option.some.injEq, Prod.mk.injEq, and_true] at h
      subst h
      exact ⟨rfl, ht⟩
    · exact setMenuNextItem_some fuel { menu with index := 0 } result h

theorem setMenuLastItem_some (fuel : Nat) (menu result : Menu)
    (h : setMenuLastItem fuel menu = some (result, true)) :
    result.items = menu.items ∧ testMenuItem result result.index = true := by
  unfold setMenuLastItem at h
  split at h
  · simp at h
  · simp only at h
    split at h
    · rename_i ht
      simp only [Option.some.injEq, Prod.mk.injEq, and_true] at h
      subst h
      exact ⟨rfl, ht⟩
    · exact setMenuPreviousItem_some fuel { menu with index := menu.count - 1 } result h

theorem wrapForward_eq_mod (count c j : Nat) (hc : c < count) (hj : j ≤ count) :
    wrapForward count c j = (c + j) % count := by
  unfold wrapForward
  split
  · rename_i h
    rw [Nat.mod_eq_of_lt h]
  · rw [Nat.mod_eq_sub_mod (by omega), Nat.mod_eq_of_lt (by omega)]

theorem wrapBackward_eq_mod (count c j : Nat) (hc : c < count) (hj : j ≤ count) :
    wrapBackward count c j = (c + count - j) % count := by
  unfold wrapBackward
  split
  · rw [Nat.mod_eq_sub_mod (by omega), Nat.mod_eq_of_lt (by omega)]
    omega
  · rw [Nat.mod_eq_of_lt (by omega)]

theorem testMenuItem_index (menu : Menu) (c i : Nat) :
    testMenuItem { menu with index := c } i = testMenuItem menu i := rfl

theorem nextIndex_eq (menu : Menu) (hcount : menu.count < 2 ^ 32) (hc : menu.index < menu.count) :
    nextIndex menu = wrapForward menu.count menu.index 1 := by
  unfold nextIndex wrapForward
  have h1 : (menu.index + 1) % 2 ^ 32 = menu.index + 1 := Nat.mod_eq_of_lt (by omega)
  rw [h1]
  split <;> split <;> omega

theorem previousIndex_eq (menu : Menu) (hc : menu.index < menu.count) :
    previousIndex menu = wrapBackward menu.count menu.index 1 := by
  unfold previousIndex wrapBackward
  split <;> split <;> omega

theorem setMenuNextItemLoop_first (fuel : Nat) :
    ∀ (menu : Menu) (k : Nat), menu.count < 2 ^ 32 → menu.index < menu.count →
      1 ≤ k → k ≤ menu.count → k ≤ fuel →
      testMenuItem menu (wrapForward menu.count menu.index k) = true →
      (∀ j, 1 ≤ j → j < k → testMenuItem menu (wrapForward menu.count menu.index j) = false) →
      setMenuNextItemLoop fuel menu
        = some { menu with index := wrapForward menu.count menu.index k } := by
  induction fuel with
  | zero => intro menu k _ _ h1 _ h2; omega
  | succ n ih =>
    intro menu k hcount hc hk1 hk2 hk3 hyes hno
    rw [setMenuNextItemLoop_succ, testMenuItem_index, nextIndex_eq menu hcount hc]
    by_cases hk : k = 1
    · subst hk
      rw [if_pos hyes]
    · have hfalse := hno 1 (le_refl 1) (by omega)
      rw [if_neg (by rw [hfalse]; simp)]
      have hstep : ∀ j, j + 1 ≤ menu.count →
          wrapForward menu.count (wrapForward menu.count menu.index 1) j
            = wrapForward menu.count menu.index (j + 1) := by
        intro j hj
        unfold wrapForward
        split <;> split <;> split <;> omega
      have hc1 : wrapForward menu.count menu.index 1 < menu.count := by
        unfold wrapForward
        split <;> omega
      have := ih { menu with index := wrapForward menu.count menu.index 1 } (k - 1)
        hcount hc1 (by omega) (by show k - 1 ≤ menu.count; omega) (by omega)
        (by
          show testMenuItem { menu with index := wrapForward menu.count menu.index 1 }
            (wrapForward menu.count (wrapForward menu.count menu.index 1) (k - 1)) = true
          rw [testMenuItem_index, hstep (k - 1) (by omega)]
          have : k - 1 + 1 = k := by omega
          rw [this]
          exact hyes)
        (by
          intro j hj1 hj2
          show testMenuItem { menu with index := wrapForward menu.count menu.index 1 }
            (wrapForward menu.count (wrapForward menu.count menu.index 1) j) = false
          rw [testMenuItem_index, hstep j (by omega)]
          exact hno (j + 1) (by omega) (by omega))
      rw [this]
      show some { menu with
        index := wrapForward menu.count (wrapForward menu.count menu.index 1) (k - 1) } = _
      rw [hstep (k - 1) (by omega)]
      have : k - 1 + 1 = k := by omega
      rw [this]

theorem setMenuPreviousItem_first (fuel : Nat) :
    ∀ (menu : Menu) (k : Nat), menu.index < menu.count →
      1 ≤ k → k ≤ menu.count → k ≤ fuel →
      testMenuItem menu (wrapBackward menu.count menu.index k) = true →
      (∀ j, 1 ≤ j → j < k → testMenuItem menu (wrapBackward menu.count menu.index j) = false) →
      setMenuPreviousItem fuel menu
        = some ({ menu with index := wrapBackward menu.count menu.index k }, true) := by
  induction fuel with
  | zero => intro menu k _ h1 _ h2; omega
  | succ n ih =>
    intro menu k hc hk1 hk2 hk3 hyes hno
    rw [setMenuPreviousItem_succ, if_neg (by omega), testMenuItem_index,
      previousIndex_eq menu hc]
    by_cases hk : k = 1
    · subst hk
      rw [if_pos hyes]
    · have hfalse := hno 1 (le_refl 1) (by omega)
      rw [if_neg (by rw [hfalse]; simp)]
      have hstep : ∀ j, j + 1 ≤ menu.count →
          wrapBackward menu.count (wrapBackward menu.count menu.index 1) j
            = wrapBackward menu.count menu.index (j + 1) := by
        intro j hj
        unfold wrapBackward
        split <;> split <;> split <;> omega
      have hc1 : wrapBackward menu.count menu.index 1 < menu.count := by
        unfold wrapBackward
        split <;> omega
      have := ih { menu with index := wrapBackward menu.count menu.index 1 } (k - 1)
        hc1 (by omega) (by show k - 1 ≤ menu.count; omega) (by omega)
        (by
          show testMenuItem { menu with index := wrapBackward menu.count menu.index 1 }
            (wrapBackward menu.count (wrapBackward menu.count menu.index 1) (k - 1)) = true
          rw [testMenuItem_index, hstep (k - 1) (by omega)]
          have : k - 1 + 1 = k := by omega
          rw [this]
          exact hyes)
        (by
          intro j hj1 hj2
          show testMenuItem { menu with index := wrapBackward menu.count menu.index 1 }
            (wrapBackward menu.count (wrapBackward menu.count menu.index 1) j) = false
          rw [testMenuItem_index, hstep j (by omega)]
          exact hno (j + 1) (by omega) (by omega))
      rw [this]
      show some ({ menu with
        index := wrapBackward menu.count (wrapBackward menu.count menu.index 1) (k - 1) },
        true) = _
      rw [hstep (k - 1) (by omega)]
      have : k - 1 + 1 = k := by omega
      rw [this]
theorem setMenuNextItem_nearest (menu : Menu) (fuel : Nat)
    (hcount : menu.count < 2 ^ 32) (hc : menu.index < menu.count)
    (hsome : ∃ e, testMenuItem menu e = true) (hfuel : menu.count ≤ fuel) :
    ∃ k, 1 ≤ k ∧ k ≤ menu.count ∧
      testMenuItem menu (wrapForward menu.count menu.index k) = true ∧
      (∀ j, 1 ≤ j → j < k → testMenuItem menu (wrapForward menu.count menu.index j) = false) ∧
      setMenuNextItem fuel menu
        = some ({ menu with index := wrapForward menu.count menu.index k }, true) := by
  classical
  obtain ⟨e, he⟩ := hsome
  have hlt := testMenuItem_lt menu e he
  have hex : ∃ k, 1 ≤ k ∧ k ≤ menu.count ∧
      testMenuItem menu (wrapForward menu.count menu.index k) = true := by
    by_cases h : menu.index < e
    · refine ⟨e - menu.index, by omega, by omega, ?_⟩
      have : wrapForward menu.count menu.index (e - menu.index) = e := by
        unfold wrapForward; split <;> omega
      rw [this]; exact he
    · refine ⟨e + menu.count - menu.index, by omega, by omega, ?_⟩
      have : wrapForward menu.count menu.index (e + menu.count - menu.index) = e := by
        unfold wrapForward; split <;> omega
      rw [this]; exact he
  have hk := Nat.find_spec hex
  have hmin := fun j => @Nat.find_min _ _ hex j
  generalize Nat.find hex = k at hk hmin
  obtain ⟨hk1, hk2, hk3⟩ := hk
  have hno : ∀ j, 1 ≤ j → j < k →
      testMenuItem menu (wrapForward menu.count menu.index j) = false := by
    intro j hj1 hj2
    cases ht : testMenuItem menu (wrapForward menu.count menu.index j) with
    | false => rfl
    | true => exact absurd ⟨hj1, by omega, ht⟩ (hmin j hj2)
  refine ⟨k, hk1, hk2, hk3, hno, ?_⟩
  unfold setMenuNextItem
  rw [if_neg (by omega),
    setMenuNextItemLoop_first fuel menu k hcount hc hk1 hk2 (by omega) hk3 hno]
  rfl

theorem setMenuPreviousItem_nearest (menu : Menu) (fuel : Nat)
    (hc : menu.index < menu.count)
    (hsome : ∃ e, testMenuItem menu e = true) (hfuel : menu.count ≤ fuel) :
    ∃ k, 1 ≤ k ∧ k ≤ menu.count ∧
      testMenuItem menu (wrapBackward menu.count menu.index k) = true ∧
      (∀ j, 1 ≤ j → j < k → testMenuItem menu (wrapBackward menu.count menu.index j) = false) ∧
      setMenuPreviousItem fuel menu
        = some ({ menu with index := wrapBackward menu.count menu.index k }, true) := by
  classical
  obtain ⟨e, he⟩ := hsome
  have hlt := testMenuItem_lt menu e he
  have hex : ∃ k, 1 ≤ k ∧ k ≤ menu.count ∧
      testMenuItem menu (wrapBackward menu.count menu.index k) = true := by
    by_cases h : e < menu.index
    · refine ⟨menu.index - e, by omega, by omega, ?_⟩
      have : wrapBackward menu.count menu.index (menu.index - e) = e := by
        unfold wrapBackward; split <;> omega
      rw [this]; exact he
    · refine ⟨menu.index + menu.count - e, by omega, by omega, ?_⟩
      have : wrapBackward menu.count menu.index (menu.index + menu.count - e) = e := by
        unfold wrapBackward; split <;> omega
      rw [this]; exact he
  have hk := Nat.find_spec hex
  have hmin := fun j => @Nat.find_min _ _ hex j
  generalize Nat.find hex = k at hk hmin
  obtain ⟨hk1, hk2, hk3⟩ := hk
  have hno : ∀ j, 1 ≤ j → j < k →
      testMenuItem menu (wrapBackward menu.count menu.index j) = false := by
    intro j hj1 hj2
    cases ht : testMenuItem menu (wrapBackward menu.count menu.index j) with
    | false => rfl
    | true => exact absurd ⟨hj1, by omega, ht⟩ (hmin j hj2)
  exact ⟨k, hk1, hk2, hk3, hno,
    setMenuPreviousItem_first fuel menu k hc hk1 hk2 (by omega) hk3 hno⟩

/-! ## Adjustment: facts shared by the proofs -/

theorem adjustMenuItemLoop_exhaust (adjust : MenuItemData → MenuItemData)
    (hadj : SettingOnly adjust) (fuel : Nat) :
    ∀ (k : Nat) (item : MenuItemData), 1 ≤ k → k ≤ fuel → 1 ≤ item.divisor →
      (∀ j, 1 ≤ j → j < k → ¬ accepts item (adjust^[j] item).setting) →
      adjustMenuItemLoop adjust fuel (k : Int) item = Outcome.done (adjust^[k] item, 0) := by
  induction fuel with
  | zero => intro k item h1 h2; omega
  | succ n ih =>
    intro k item h1 h2 hd hrej
    rw [adjustMenuItemLoop]
    by_cases hk : k = 1
    · subst hk
      simp
    · have hc : ¬ ((k : Int) - 1 = 0) := by omega
      rw [if_neg hc]
      have hfields := hadj item
      have hdiv : (adjust item).divisor = item.divisor := by rw [hfields]
      have hch : vetoed (adjust item) = vetoed item := by
        funext v; unfold vetoed; rw [hfields]
      rw [if_neg (by rw [hdiv]; omega)]
      have hr1 := hrej 1 (le_refl 1) (by omega)
      rw [Function.iterate_one] at hr1
      have hcond : (adjust item).setting % (adjust item).divisor ≠ 0 ∨
          vetoed (adjust item) (adjust item).setting = true := by
        rw [hdiv, hch]
        unfold accepts at hr1
        by_cases hm : (adjust item).setting % item.divisor = 0
        · right
          cases hv : vetoed item (adjust item).setting with
          | true => rfl
          | false => exact absurd ⟨hm, hv⟩ hr1
        · left; exact hm
      rw [if_pos hcond]
      have hcast : ((k : Int) - 1) = ((k - 1 : Nat) : Int) := by omega
      rw [hcast, ih (k - 1) (adjust item) (by omega) (by omega) (by rw [hdiv]; exact hd)]
      · rw [← Function.iterate_succ_apply]
        have : (k - 1).succ = k := by omega
        rw [this]
      · intro j hj1 hj2
        have := hrej (j + 1) (by omega) (by omega)
        rw [Function.iterate_succ_apply] at this
        unfold accepts at this ⊢
        rw [hdiv, hch]
        exact this

theorem adjustMenuItemLoop_first (adjust : MenuItemData → MenuItemData)
    (hadj : SettingOnly adjust) (fuel : Nat) :
    ∀ (k j : Nat) (item : MenuItemData), 1 ≤ j → j < k → j ≤ fuel → 1 ≤ item.divisor →
      accepts item (adjust^[j] item).setting →
      (∀ i, 1 ≤ i → i < j → ¬ accepts item (adjust^[i] item).setting) →
      adjustMenuItemLoop adjust fuel (k : Int) item
        = Outcome.done (adjust^[j] item, (k : Int) - (j : Int)) := by
  induction fuel with
  | zero => intro k j item h1 h2 h3; omega
  | succ n ih =>
    intro k j item h1 h2 h3 hd hacc hrej
    rw [adjustMenuItemLoop]
    have hc : ¬ ((k : Int) - 1 = 0) := by omega
    rw [if_neg hc]
    have hfields := hadj item
    have hdiv : (adjust item).divisor = item.divisor := by rw [hfields]
    have hch : vetoed (adjust item) = vetoed item := by
      funext v; unfold vetoed; rw [hfields]
    rw [if_neg (by rw [hdiv]; omega)]
    by_cases hj : j = 1
    · subst hj
      rw [Function.iterate_one] at hacc
      have hcond : ¬ ((adjust item).setting % (adjust item).divisor ≠ 0 ∨
          vetoed (adjust item) (adjust item).setting = true) := by
        rw [hdiv, hch]
        unfold accepts at hacc
        rw [hacc.1, hacc.2]
        simp
      rw [if_neg hcond]
      simp
    · have hr1 := hrej 1 (le_refl 1) (by omega)
      rw [Function.iterate_one] at hr1
      have hcond : (adjust item).setting % (adjust item).divisor ≠ 0 ∨
          vetoed (adjust item) (adjust item).setting = true := by
        rw [hdiv, hch]
        unfold accepts at hr1
        by_cases hm : (adjust item).setting % item.divisor = 0
        · right
          cases hv : vetoed item (adjust item).setting with
          | true => rfl
          | false => exact absurd ⟨hm, hv⟩ hr1
        · left; exact hm
      rw [if_pos hcond]
      have hcast : ((k : Int) - 1) = ((k - 1 : Nat) : Int) := by omega
      have hj' : (j - 1).succ = j := by omega
      rw [hcast, ih (k - 1) (j - 1) (adjust item) (by omega) (by omega) (by omega)
        (by rw [hdiv]; exact hd)]
      · rw [← Function.iterate_succ_apply, hj']
        congr 2
        omega
      · unfold accepts
        rw [hdiv, hch, ← Function.iterate_succ_apply, hj']
        exact hacc
      · intro i hi1 hi2
        have := hrej (i + 1) (by omega) (by omega)
        rw [Function.iterate_succ_apply] at this
        unfold accepts at this ⊢
        rw [hdiv, hch]
        exact this

theorem settingOnly_increment : SettingOnly incrementMenuItem := by
  intro item
  unfold incrementMenuItem
  split <;> rfl

theorem settingOnly_decrement : SettingOnly decrementMenuItem := by
  intro item
  unfold decrementMenuItem
  split <;> rfl

theorem increment_iterate (item : MenuItemData)
    (hmin : item.minimum ≤ item.setting) (hmax : item.setting ≤ item.maximum)
    (hbyte : item.maximum < 256) (j : Nat) (hj : j ≤ item.maximum - item.minimum + 1) :
    incrementMenuItem^[j] item = { item with setting := incrementedSetting item j } := by
  induction j with
  | zero =>
    unfold incrementedSetting
    simp [hmax]
  | succ n ih =>
    rw [Function.iterate_succ_apply', ih (by omega)]
    unfold incrementMenuItem incrementedSetting
    simp only
    split <;> split <;> split <;> simp only [MenuItemData.mk.injEq, and_true] <;> omega

theorem decrement_iterate (item : MenuItemData)
    (hmin : item.minimum ≤ item.setting) (hmax : item.setting ≤ item.maximum)
    (hbyte : item.maximum < 256) (j : Nat) (hj : j ≤ item.maximum - item.minimum + 1) :
    decrementMenuItem^[j] item = { item with setting := decrementedSetting item j } := by
  induction j with
  | zero =>
    unfold decrementedSetting
    simp [hmin]
  | succ n ih =>
    rw [Function.iterate_succ_apply', ih (by omega)]
    unfold decrementMenuItem decrementedSetting
    simp only
    split <;> split <;> split <;> simp only [MenuItemData.mk.injEq, and_true] <;> omega

theorem adjustMenuItem_spec (adjust : MenuItemData → MenuItemData) (f : Nat → Nat)
    (item : MenuItemData) (fuel : Nat)
    (hso : SettingOnly adjust)
    (hit : ∀ j, j ≤ item.maximum - item.minimum + 1 →
      adjust^[j] item = { item with setting := f j })
    (hminmax : item.minimum ≤ item.maximum) (hdiv : 1 ≤ item.divisor)
    (hfuel : item.maximum - item.minimum + 1 ≤ fuel) :
    ∃ v status, adjustMenuItem fuel item adjust
        = Outcome.done ({ item with setting := v }, status) ∧
      ((status = true ∧ ∃ j, 1 ≤ j ∧ j < item.maximum - item.minimum + 1 ∧ v = f j ∧
          accepts item (f j) ∧ ∀ i, 1 ≤ i → i < j → ¬ accepts item (f i)) ∨
       (status = false ∧ v = f (item.maximum - item.minimum + 1) ∧
          ∀ j, 1 ≤ j → j < item.maximum - item.minimum + 1 → ¬ accepts item (f j))) := by
  classical
  have hcast : ((item.maximum : Int) - (item.minimum : Int) + 1)
      = ((item.maximum - item.minimum + 1 : Nat) : Int) := by omega
  have hset : ∀ j, j ≤ item.maximum - item.minimum + 1 → (adjust^[j] item).setting = f j := by
    intro j hj
    rw [hit j hj]
  by_cases hex : ∃ j, 1 ≤ j ∧ j < item.maximum - item.minimum + 1 ∧ accepts item (f j)
  · have hj := Nat.find_spec hex
    have hmin := fun i => @Nat.find_min _ _ hex i
    generalize Nat.find hex = j at hj hmin
    obtain ⟨hj1, hj2, hj3⟩ := hj
    refine ⟨f j, true, ?_, Or.inl ⟨rfl, j, hj1, hj2, rfl, hj3, ?_⟩⟩
    · unfold adjustMenuItem
      rw [hcast, adjustMenuItemLoop_first adjust hso fuel _ j item hj1 hj2 (by omega) hdiv
        (by rw [hset j (by omega)]; exact hj3)
        (by
          intro i hi1 hi2
          rw [hset i (by omega)]
          intro hacc
          exact hmin i hi2 ⟨hi1, by omega, hacc⟩)]
      simp only
      rw [hit j (by omega)]
      have : decide (((item.maximum - item.minimum + 1 : Nat) : Int) - (j : Int) ≠ 0) = true := by
        rw [decide_eq_true_eq]
        omega
      rw [this]
    · intro i hi1 hi2 hacc
      exact hmin i hi2 ⟨hi1, by omega, hacc⟩
  · have hrej : ∀ j, 1 ≤ j → j < item.maximum - item.minimum + 1 → ¬ accepts item (f j) := by
      intro j hj1 hj2 hacc
      exact hex ⟨j, hj1, hj2, hacc⟩
    refine ⟨f (item.maximum - item.minimum + 1), false, ?_, Or.inr ⟨rfl, rfl, hrej⟩⟩
    unfold adjustMenuItem
    rw [hcast, adjustMenuItemLoop_exhaust adjust hso fuel _ item (by omega) hfuel hdiv
      (by
        intro j hj1 hj2
        rw [hset j (by omega)]
        exact hrej j hj1 hj2)]
    simp only
    rw [hit _ (le_refl _)]
    simp

theorem incrementedSetting_range (item : MenuItemData)
    (hmin : item.minimum ≤ item.setting) (hmax : item.setting ≤ item.maximum)
    (j : Nat) (hj : j ≤ item.maximum - item.minimum + 1) :
    item.minimum ≤ incrementedSetting item j ∧ incrementedSetting item j ≤ item.maximum ∧
    (1 ≤ j → j < item.maximum - item.minimum + 1 → incrementedSetting item j ≠ item.setting) ∧
    (j = item.maximum - item.minimum + 1 → incrementedSetting item j = item.setting) := by
  unfold incrementedSetting
  split <;> refine ⟨?_, ?_, ?_, ?_⟩ <;> omega

theorem decrementedSetting_range (item : MenuItemData)
    (hmin : item.minimum ≤ item.setting) (hmax : item.setting ≤ item.maximum)
    (j : Nat) (hj : j ≤ item.maximum - item.minimum + 1) :
    item.minimum ≤ decrementedSetting item j ∧ decrementedSetting item j ≤ item.maximum ∧
    (1 ≤ j → j < item.maximum - item.minimum + 1 → decrementedSetting item j ≠ item.setting) ∧
    (j = item.maximum - item.minimum + 1 → decrementedSetting item j = item.setting) := by
  unfold decrementedSetting
  split <;> refine ⟨?_, ?_, ?_, ?_⟩ <;> omega

theorem incrementedSetting_reaches (item : MenuItemData)
    (hmin : item.minimum ≤ item.setting) (hmax : item.setting ≤ item.maximum)
    (w : Nat) (hw1 : item.minimum ≤ w) (hw2 : w ≤ item.maximum) (hw3 : w ≠ item.setting) :
    ∃ j, 1 ≤ j ∧ j < item.maximum - item.minimum + 1 ∧ incrementedSetting item j = w := by
  by_cases h : item.setting < w
  · refine ⟨w - item.setting, by omega, by omega, ?_⟩
    unfold incrementedSetting
    split <;> omega
  · refine ⟨w + (item.maximum - item.minimum + 1) - item.setting, by omega, by omega, ?_⟩
    unfold incrementedSetting
    split <;> omega

theorem decrementedSetting_reaches (item : MenuItemData)
    (hmin : item.minimum ≤ item.setting) (hmax : item.setting ≤ item.maximum)
    (w : Nat) (hw1 : item.minimum ≤ w) (hw2 : w ≤ item.maximum) (hw3 : w ≠ item.setting) :
    ∃ j, 1 ≤ j ∧ j < item.maximum - item.minimum + 1 ∧ decrementedSetting item j = w := by
  by_cases h : w < item.setting
  · refine ⟨item.setting - w, by omega, by omega, ?_⟩
    unfold decrementedSetting
    split <;> omega
  · refine ⟨item.setting + (item.maximum - item.minimum + 1) - w, by omega, by omega, ?_⟩
    unfold decrementedSetting
    split <;> omega

theorem walkUp_eq (item : MenuItemData)
    (hmin : item.minimum ≤ item.setting) (hmax : item.setting ≤ item.maximum) (j : Nat)
    (hj : j ≤ item.maximum - item.minimum + 1) :
    walkUp item j = incrementedSetting item j := by
  induction j with
  | zero =>
    unfold walkUp incrementedSetting
    simp [hmax]
  | succ n ih =>
    rw [walkUp, ih (by omega)]
    unfold incrementedSetting
    split <;> split <;> split <;> omega

theorem walkDown_eq (item : MenuItemData)
    (hmin : item.minimum ≤ item.setting) (hmax : item.setting ≤ item.maximum) (j : Nat)
    (hj : j ≤ item.maximum - item.minimum + 1) :
    walkDown item j = decrementedSetting item j := by
  induction j with
  | zero =>
    unfold walkDown decrementedSetting
    simp [hmin]
  | succ n ih =>
    rw [walkDown, ih (by omega)]
    unfold decrementedSetting
    split <;> split <;> split <;> omega

/-! ## Activation bookkeeping: facts shared by the proofs -/

theorem setMenuNextItemLoop_frame (fuel : Nat) :
    ∀ menu result : Menu, setMenuNextItemLoop fuel menu = some result → SameItems menu result := by
  induction fuel with
  | zero => intro menu result h; simp [setMenuNextItemLoop] at h
  | succ n ih =>
    intro menu result h
    rw [setMenuNextItemLoop_succ] at h
    by_cases ht : testMenuItem { menu with index := nextIndex menu } (nextIndex menu) = true
    · rw [if_pos ht] at h
      cases h
      exact ⟨rfl, rfl, rfl, rfl⟩
    · rw [if_neg ht] at h
      exact ih { menu with index := nextIndex menu } result h

theorem setMenuPreviousItem_frame (fuel : Nat) :
    ∀ (menu result : Menu) (status : Bool),
      setMenuPreviousItem fuel menu = some (result, status) → SameItems menu result := by
  induction fuel with
  | zero => intro menu result status h; simp [setMenuPreviousItem] at h
  | succ n ih =>
    intro menu result status h
    rw [setMenuPreviousItem_succ] at h
    by_cases h0 : menu.index = 0 ∧ menu.count = 0
    · rw [if_pos h0] at h
      simp only [Option.some.injEq, Prod.mk.injEq] at h
      rw [← h.1]
      exact ⟨rfl, rfl, rfl, rfl⟩
    · rw [if_neg h0] at h
      by_cases ht :
          testMenuItem { menu with index := previousIndex menu } (previousIndex menu) = true
      · rw [if_pos ht] at h
        simp only [Option.some.injEq, Prod.mk.injEq] at h
        rw [← h.1]
        exact ⟨rfl, rfl, rfl, rfl⟩
      · rw [if_neg ht] at h
        exact ih { menu with index := previousIndex menu } result status h

theorem setMenuNextItem_frame (fuel : Nat) (menu result : Menu) (status : Bool)
    (h : setMenuNextItem fuel menu = some (result, status)) : SameItems menu result := by
  unfold setMenuNextItem at h
  split at h
  · simp only [Option.some.injEq, Prod.mk.injEq] at h
    rw [← h.1]
    exact ⟨rfl, rfl, rfl, rfl⟩
  · cases hl : setMenuNextItemLoop fuel menu with
    | none => rw [hl] at h; simp at h
    | some m =>
      rw [hl] at h
      simp only [Option.map_some', Option.some.injEq, Prod.mk.injEq] at h
      rw [← h.1]
      exact setMenuNextItemLoop_frame fuel menu m hl

theorem setMenuFirstItem_frame (fuel : Nat) (menu result : Menu) (status : Bool)
    (h : setMenuFirstItem fuel menu = some (result, status)) : SameItems menu result := by
  unfold setMenuFirstItem at h
  split at h
  · simp only [Option.some.injEq, Prod.mk.injEq] at h
    rw [← h.1]
    exact ⟨rfl, rfl, rfl, rfl⟩
  · simp only at h
    split at h
    · simp only [Option.some.injEq, Prod.mk.injEq] at h
      rw [← h.1]
      exact ⟨rfl, rfl, rfl, rfl⟩
    · exact setMenuNextItem_frame fuel { menu with index := 0 } result status h

theorem setMenuLastItem_frame (fuel : Nat) (menu result : Menu) (status : Bool)
    (h : setMenuLastItem fuel menu = some (result, status)) : SameItems menu result := by
  unfold setMenuLastItem at h
  split at h
  · simp only [Option.some.injEq, Prod.mk.injEq] at h
    rw [← h.1]
    exact ⟨rfl, rfl, rfl, rfl⟩
  · simp only at h
    split at h
    · simp only [Option.some.injEq, Prod.mk.injEq] at h
      rw [← h.1]
      exact ⟨rfl, rfl, rfl, rfl⟩
    · exact setMenuPreviousItem_frame fuel { menu with index := menu.count - 1 } result status h

theorem endMenuItem_spec (menu result : Menu) (p : ItemPtr) (deallocating : Bool)
    (calls : List HookCall) (h : endMenuItem menu p deallocating = some (result, calls)) :
    ∃ it, itemAt menu p = some it ∧
      ((it.methods.endItem = none ∧ result = menu ∧ calls = []) ∨
       (∃ hook d, it.methods.endItem = some hook ∧
          hook it.toMenuItemData deallocating = some d ∧
          result = { menu with
            items := menu.items.set p.index { it with toMenuItemData := d } } ∧
          calls = [HookCall.endItem p deallocating])) := by
  unfold endMenuItem at h
  cases hit : itemAt menu p with
  | none => rw [hit] at h; simp at h
  | some it =>
    rw [hit] at h
    simp only at h
    refine ⟨it, rfl, ?_⟩
    cases hhook : it.methods.endItem with
    | none =>
      rw [hhook] at h
      simp only [Option.some.injEq, Prod.mk.injEq] at h
      exact Or.inl ⟨rfl, h.1.symm, h.2.symm⟩
    | some hook =>
      rw [hhook] at h
      simp only at h
      cases hres : hook it.toMenuItemData deallocating with
      | none => rw [hres] at h; simp at h
      | some d =>
        rw [hres] at h
        simp only [Option.some.injEq, Prod.mk.injEq] at h
        exact Or.inr ⟨hook, d, rfl, hres, h.1.symm, h.2.symm⟩

theorem beginMenuItem_spec (menu result : Menu) (p : ItemPtr) (status : Bool)
    (calls : List HookCall) (h : beginMenuItem menu (some p) = some (result, status, calls)) :
    ∃ it, itemAt menu p = some it ∧
      ((it.methods.beginItem = none ∧ result = menu ∧ status = true ∧ calls = []) ∨
       (∃ hook d, it.methods.beginItem = some hook ∧
          hook it.toMenuItemData = some (d, status) ∧
          result = { menu with
            items := menu.items.set p.index { it with toMenuItemData := d } } ∧
          calls = [HookCall.beginItem p])) := by
  unfold beginMenuItem at h
  simp only at h
  cases hit : itemAt menu p with
  | none => rw [hit] at h; simp at h
  | some it =>
    rw [hit] at h
    simp only at h
    refine ⟨it, rfl, ?_⟩
    cases hhook : it.methods.beginItem with
    | none =>
      rw [hhook] at h
      simp only [Option.some.injEq, Prod.mk.injEq] at h
      exact Or.inl ⟨rfl, h.1.symm, h.2.1.symm, h.2.2.symm⟩
    | some hook =>
      rw [hhook] at h
      simp only at h
      cases hres : hook it.toMenuItemData with
      | none => rw [hres] at h; simp at h
      | some r =>
        obtain ⟨d, st⟩ := r
        rw [hres] at h
        simp only [Option.some.injEq, Prod.mk.injEq] at h
        refine Or.inr ⟨hook, d, rfl, ?_, h.1.symm, h.2.2.symm⟩
        rw [← h.2.1]
        exact hres

/-- What a hook call through `beginMenuItem` or `endMenuItem` leaves alone. -/
theorem endMenuItem_frame (menu result : Menu) (p : ItemPtr) (deallocating : Bool)
    (calls : List HookCall) (h : endMenuItem menu p deallocating = some (result, calls)) :
    result.index = menu.index ∧ result.activeItem = menu.activeItem ∧
    result.size = menu.size ∧ result.array = menu.array ∧ result.count = menu.count ∧
    (∀ k, k ≠ p.index → result.items[k]? = menu.items[k]?) := by
  obtain ⟨it, _, hcase⟩ := endMenuItem_spec menu result p deallocating calls h
  rcases hcase with ⟨_, hr, _⟩ | ⟨hook, d, _, _, hr, _⟩
  · rw [hr]; exact ⟨rfl, rfl, rfl, rfl, rfl, fun _ _ => rfl⟩
  · rw [hr]
    refine ⟨rfl, rfl, rfl, rfl, by simp [Menu.count], ?_⟩
    intro k hk
    simp only
    rw [List.getElem?_set_ne (Ne.symm hk)]

theorem beginMenuItem_frame (menu result : Menu) (p : ItemPtr) (status : Bool)
    (calls : List HookCall) (h : beginMenuItem menu (some p) = some (result, status, calls)) :
    result.index = menu.index ∧ result.activeItem = menu.activeItem ∧
    result.size = menu.size ∧ result.array = menu.array ∧ result.count = menu.count ∧
    (∀ k, k ≠ p.index → result.items[k]? = menu.items[k]?) := by
  obtain ⟨it, _, hcase⟩ := beginMenuItem_spec menu result p status calls h
  rcases hcase with ⟨_, hr, _, _⟩ | ⟨hook, d, _, _, hr, _⟩
  · rw [hr]; exact ⟨rfl, rfl, rfl, rfl, rfl, fun _ _ => rfl⟩
  · rw [hr]
    refine ⟨rfl, rfl, rfl, rfl, by simp [Menu.count], ?_⟩
    intro k hk
    simp only
    rw [List.getElem?_set_ne (Ne.symm hk)]

theorem getMenuItem_some (menu : Menu) (index : Nat) (p : ItemPtr)
    (h : getMenuItem menu index = some p) :
    p = { block := menu.array, index := index } ∧ index < menu.count := by
  unfold getMenuItem at h
  split at h
  · rename_i hlt
    simp only [Option.some.injEq] at h
    exact ⟨h.symm, hlt⟩
  · cases h

theorem getCurrentMenuItem_same (menu : Menu)
    (h : getMenuItem menu menu.index = menu.activeItem) :
    getCurrentMenuItem menu = some (menu, getMenuItem menu menu.index, []) := by
  unfold getCurrentMenuItem
  simp only [ne_eq, h, not_true_eq_false, if_false]

theorem getCurrentMenuItem_change (menu result : Menu) (r : Option ItemPtr)
    (calls : List HookCall)
    (hne : getMenuItem menu menu.index ≠ menu.activeItem)
    (h : getCurrentMenuItem menu = some (result, r, calls)) :
    ∃ menu1 calls1 menu2 status calls2,
      (match menu.activeItem with
        | none => some (menu, [])
        | some old => endMenuItem menu old false) = some (menu1, calls1) ∧
      beginMenuItem menu1 (getMenuItem menu menu.index) = some (menu2, status, calls2) ∧
      result = { menu2 with
        activeItem := if status = true then getMenuItem menu menu.index else none } ∧
      r = getMenuItem menu menu.index ∧ calls = calls1 ++ calls2 := by
  unfold getCurrentMenuItem at h
  simp only [ne_eq, hne, not_false_eq_true, if_true] at h
  generalize hended : (match menu.activeItem with
        | none => some (menu, [])
        | some old => endMenuItem menu old false) = ended at h
  cases ended with
  | none => simp at h
  | some e =>
    obtain ⟨menu1, calls1⟩ := e
    simp only at h
    cases hb : beginMenuItem menu1 (getMenuItem menu menu.index) with
    | none => rw [hb] at h; simp at h
    | some b =>
      obtain ⟨menu2, status, calls2⟩ := b
      rw [hb] at h
      simp only [Option.some.injEq, Prod.mk.injEq] at h
      exact ⟨menu1, calls1, menu2, status, calls2, rfl, hb, h.1.symm, h.2.1.symm, h.2.2.symm⟩

theorem getCurrentMenuItem_frame (menu result : Menu) (r : Option ItemPtr)
    (calls : List HookCall)
    (h : getCurrentMenuItem menu = some (result, r, calls)) :
    result.index = menu.index ∧ result.count = menu.count ∧ result.size = menu.size ∧
    result.array = menu.array ∧ r = getMenuItem menu menu.index ∧
    (result.activeItem = getMenuItem menu menu.index ∨ result.activeItem = none) := by
  by_cases hne : getMenuItem menu menu.index = menu.activeItem
  · rw [getCurrentMenuItem_same menu hne] at h
    simp only [Option.some.injEq, Prod.mk.injEq] at h
    rw [← h.1, ← h.2.1]
    exact ⟨rfl, rfl, rfl, rfl, rfl, Or.inl hne.symm⟩
  · obtain ⟨menu1, calls1, menu2, status, calls2, h1, h2, h3, h4, _⟩ :=
      getCurrentMenuItem_change menu result r calls hne h
    have e1 : menu1.index = menu.index ∧ menu1.count = menu.count ∧ menu1.size = menu.size ∧
        menu1.array = menu.array := by
      cases ha : menu.activeItem with
      | none =>
        rw [ha] at h1
        simp only [Option.some.injEq, Prod.mk.injEq] at h1
        rw [← h1.1]
        exact ⟨rfl, rfl, rfl, rfl⟩
      | some old =>
        rw [ha] at h1
        have := endMenuItem_frame menu menu1 old false calls1 h1
        exact ⟨this.1, this.2.2.2.2.1, this.2.2.1, this.2.2.2.1⟩
    cases hg : getMenuItem menu menu.index with
    | none => rw [hg] at h2; simp [beginMenuItem] at h2
    | some p =>
      rw [hg] at h2
      have e2 := beginMenuItem_frame menu1 menu2 p status calls2 h2
      rw [h3, h4]
      refine ⟨e2.1.trans e1.1, e2.2.2.2.2.1.trans e1.2.1, e2.2.2.1.trans e1.2.2.1,
        e2.2.2.2.1.trans e1.2.2.2, hg, ?_⟩
      cases status with
      | true => left; simp [hg]
      | false => right; simp

theorem newMenuItem_frame (menu : Menu) (item : MenuItem) (newArray : Nat) :
    (newMenuItem menu item newArray).1.activeItem = menu.activeItem ∧
    (newMenuItem menu item newArray).1.index = menu.index ∧
    menu.count ≤ (newMenuItem menu item newArray).1.count := by
  unfold newMenuItem
  by_cases h1 : menu.count = menu.size
  · rw [if_pos h1]
    by_cases h2 : newArray = 0
    · rw [if_pos h2]
      exact ⟨rfl, rfl, le_refl _⟩
    · rw [if_neg h2]
      refine ⟨rfl, rfl, ?_⟩
      show menu.items.length ≤ (menu.items ++ [item]).length
      simp
  · rw [if_neg h1]
    refine ⟨rfl, rfl, ?_⟩
    show menu.items.length ≤ (menu.items ++ [item]).length
    simp

theorem setMenuNextItem_cursor (fuel : Nat) (menu result : Menu) (status : Bool)
    (hok : CursorOk menu) (h : setMenuNextItem fuel menu = some (result, status)) :
    CursorOk result := by
  cases status with
  | true =>
    obtain ⟨_, h2⟩ := setMenuNextItem_some fuel menu result h
    exact Or.inl (testMenuItem_lt result result.index h2)
  | false =>
    unfold setMenuNextItem at h
    split at h
    · simp only [Option.some.injEq, Prod.mk.injEq, and_true] at h
      rw [← h]; exact hok
    · cases hl : setMenuNextItemLoop fuel menu with
      | none => rw [hl] at h; simp at h
      | some m => rw [hl] at h; simp at h

theorem setMenuPreviousItem_cursor (fuel : Nat) :
    ∀ (menu result : Menu) (status : Bool),
      setMenuPreviousItem fuel menu = some (result, status) → CursorOk result := by
  induction fuel with
  | zero => intro menu result status h; simp [setMenuPreviousItem] at h
  | succ n ih =>
    intro menu result status h
    rw [setMenuPreviousItem_succ] at h
    by_cases h0 : menu.index = 0 ∧ menu.count = 0
    · rw [if_pos h0] at h
      simp only [Option.some.injEq, Prod.mk.injEq] at h
      rw [← h.1]
      exact Or.inr ⟨h0.2, rfl⟩
    · rw [if_neg h0] at h
      by_cases ht :
          testMenuItem { menu with index := previousIndex menu } (previousIndex menu) = true
      · rw [if_pos ht] at h
        simp only [Option.some.injEq, Prod.mk.injEq] at h
        rw [← h.1]
        exact Or.inl (testMenuItem_lt _ _ ht)
      · rw [if_neg ht] at h
        exact ih _ result status h

theorem setMenuFirstItem_cursor (fuel : Nat) (menu result : Menu) (status : Bool)
    (hok : CursorOk menu) (h : setMenuFirstItem fuel menu = some (result, status)) :
    CursorOk result := by
  unfold setMenuFirstItem at h
  split at h
  · simp only [Option.some.injEq, Prod.mk.injEq] at h
    rw [← h.1]; exact hok
  · rename_i hne
    simp only at h
    split at h
    · rename_i ht
      simp only [Option.some.injEq, Prod.mk.injEq] at h
      rw [← h.1]
      exact Or.inl (testMenuItem_lt _ _ ht)
    · exact setMenuNextItem_cursor fuel { menu with index := 0 } result status
        (Or.inl (by show 0 < menu.count; omega)) h

theorem setMenuLastItem_cursor (fuel : Nat) (menu result : Menu) (status : Bool)
    (hok : CursorOk menu) (h : setMenuLastItem fuel menu = some (result, status)) :
    CursorOk result := by
  unfold setMenuLastItem at h
  split at h
  · simp only [Option.some.injEq, Prod.mk.injEq] at h
    rw [← h.1]; exact hok
  · simp only at h
    split at h
    · rename_i ht
      simp only [Option.some.injEq, Prod.mk.injEq] at h
      rw [← h.1]
      exact Or.inl (testMenuItem_lt _ _ ht)
    · exact setMenuPreviousItem_cursor fuel _ result status h

theorem reachable_cursorOk (menu : Menu) (hreach : Reachable menu) : CursorOk menu := by
  induction hreach with
  | newMenu => exact Or.inr ⟨rfl, rfl⟩
  | append menu item newArray _ ih =>
    obtain ⟨_, h2, h3⟩ := newMenuItem_frame menu item newArray
    unfold CursorOk at ih ⊢
    rw [h2]
    omega
  | first menu result fuel status _ hrun ih => exact setMenuFirstItem_cursor fuel _ _ _ ih hrun
  | last menu result fuel status _ hrun ih => exact setMenuLastItem_cursor fuel _ _ _ ih hrun
  | next menu result fuel status _ hrun ih => exact setMenuNextItem_cursor fuel _ _ _ ih hrun
  | previous menu result fuel status _ hrun _ => exact setMenuPreviousItem_cursor fuel _ _ _ hrun
  | current menu result item calls _ hrun ih =>
    obtain ⟨h1, h2, _⟩ := getCurrentMenuItem_frame menu result item calls hrun
    unfold CursorOk at ih ⊢
    rw [h1, h2]
    exact ih

theorem sameItems_active (menu result : Menu) (h : SameItems menu result)
    (ih : ∀ p, menu.activeItem = some p → p.index < menu.count) :
    ∀ p, result.activeItem = some p → p.index < result.count := by
  obtain ⟨h1, _, h3, _⟩ := h
  intro p hp
  have := ih p (by rw [← h3]; exact hp)
  unfold Menu.count at this ⊢
  rw [h1]
  exact this

theorem reachable_activeItem (menu : Menu) (hreach : Reachable menu) :
    ∀ p, menu.activeItem = some p → p.index < menu.count := by
  induction hreach with
  | newMenu => intro p h; cases h
  | append menu item newArray _ ih =>
    intro p h
    obtain ⟨h1, _, h3⟩ := newMenuItem_frame menu item newArray
    have := ih p (by rw [← h1]; exact h)
    omega
  | first menu result fuel status _ hrun ih =>
    exact sameItems_active menu result (setMenuFirstItem_frame fuel menu result status hrun) ih
  | last menu result fuel status _ hrun ih =>
    exact sameItems_active menu result (setMenuLastItem_frame fuel menu result status hrun) ih
  | next menu result fuel status _ hrun ih =>
    exact sameItems_active menu result (setMenuNextItem_frame fuel menu result status hrun) ih
  | previous menu result fuel status _ hrun ih =>
    exact sameItems_active menu result (setMenuPreviousItem_frame fuel menu result status hrun) ih
  | current menu result item calls _ hrun _ =>
    intro p h
    obtain ⟨_, h2, _, h4, _, h6⟩ := getCurrentMenuItem_frame menu result item calls hrun
    rcases h6 with h6 | h6
    · rw [h6] at h
      obtain ⟨hp, hlt⟩ := getMenuItem_some menu menu.index p h
      rw [h2, hp]
      exact hlt
    · rw [h6] at h; cases h

theorem reachable_filledMenu (n : Nat) (h1 : 1 ≤ n) (h16 : n ≤ 16) :
    Reachable (filledMenu n none) := by
  induction n with
  | zero => omega
  | succ k ih =>
    by_cases hk : k = 0
    · subst hk
      exact Reachable.append newMenu (sampleItem none) 1 Reachable.newMenu
    · have hprev := ih (by omega) (by omega)
      have hstep := Reachable.append (filledMenu k none) (sampleItem none) 1 hprev
      have heq : (newMenuItem (filledMenu k none) (sampleItem none) 1).1
          = filledMenu (k + 1) none := by
        unfold newMenuItem
        have hcount : (filledMenu k none).count ≠ (filledMenu k none).size := by
          show (List.replicate k (sampleItem none)).length ≠ 16
          rw [List.length_replicate]
          omega
        rw [if_neg hcount]
        show ({ filledMenu k none with
          items := List.replicate k (sampleItem none) ++ [sampleItem none] } : Menu) = _
        rw [← List.replicate_succ']
        rfl
      rw [heq] at hstep
      exact hstep

theorem reachable_staleMenu : Reachable staleMenu := by
  have h16 := reachable_filledMenu 16 (by decide) (by decide)
  have hcur : Reachable (filledMenu 16 (some { block := 1, index := 0 })) :=
    Reachable.current _ _ (some { block := 1, index := 0 }) [] h16 rfl
  exact Reachable.append _ (sampleItem none) 2 hcur

theorem reachable_movedOnMenu : Reachable movedOnMenu := by
  have h2 := reachable_filledMenu 2 (by decide) (by decide)
  have hcur : Reachable (filledMenu 2 (some { block := 1, index := 0 })) :=
    Reachable.current _ _ (some { block := 1, index := 0 }) [] h2 rfl
  exact Reachable.next _ movedOnMenu 1 true hcur rfl

/-! ## File-selection item: facts shared by the proofs -/

theorem char_toNat_inj (a b : Char) (h : a.toNat = b.toNat) : a = b := by
  have h1 := congrArg Char.ofNat h
  rwa [Char.ofNat_toNat, Char.ofNat_toNat] at h1

theorem strcmpChars_eq_zero : ∀ a b : List Char, strcmpChars a b = 0 ↔ a = b
  | [], [] => by simp [strcmpChars]
  | [], _ :: _ => by simp [strcmpChars]
  | _ :: _, [] => by simp [strcmpChars]
  | a :: as, b :: bs => by
    rw [strcmpChars]
    by_cases h1 : a.toNat < b.toNat
    · rw [if_pos h1]
      have : a ≠ b := by intro h; subst h; omega
      simp [this]
    · rw [if_neg h1]
      by_cases h2 : b.toNat < a.toNat
      · rw [if_pos h2]
        have : a ≠ b := by intro h; subst h; omega
        simp [this]
      · rw [if_neg h2]
        have hab : a = b := char_toNat_inj a b (by omega)
        rw [strcmpChars_eq_zero as bs]
        simp [hab]

theorem strcmpChars_total : ∀ a b : List Char, strcmpChars a b ≤ 0 ∨ strcmpChars b a ≤ 0
  | [], [] => by simp [strcmpChars]
  | [], _ :: _ => by simp [strcmpChars]
  | _ :: _, [] => by simp [strcmpChars]
  | a :: as, b :: bs => by
    rw [strcmpChars, strcmpChars]
    by_cases h1 : a.toNat < b.toNat
    · left; rw [if_pos h1]; omega
    · by_cases h2 : b.toNat < a.toNat
      · right; rw [if_pos h2]; omega
      · rw [if_neg h1, if_neg h2, if_neg h2, if_neg h1]
        exact strcmpChars_total as bs

theorem strcmpChars_trans : ∀ a b c : List Char,
    strcmpChars a b ≤ 0 → strcmpChars b c ≤ 0 → strcmpChars a c ≤ 0
  | [], _, [] => by simp [strcmpChars]
  | [], _, _ :: _ => by simp [strcmpChars]
  | _ :: _, [], _ => by simp [strcmpChars]
  | _ :: _, _ :: _, [] => by simp [strcmpChars]
  | a :: as, b :: bs, c :: cs => by
    intro h1 h2
    rw [strcmpChars] at h1 h2 ⊢
    by_cases hab : a.toNat < b.toNat
    · by_cases hbc : b.toNat < c.toNat
      · rw [if_pos (by omega)]; omega
      · rw [if_neg hbc] at h2
        by_cases hcb : c.toNat < b.toNat
        · rw [if_pos hcb] at h2; omega
        · rw [if_pos (by omega)]; omega
    · rw [if_neg hab] at h1
      by_cases hba : b.toNat < a.toNat
      · rw [if_pos hba] at h1; omega
      · rw [if_neg hba] at h1
        by_cases hbc : b.toNat < c.toNat
        · rw [if_pos (by omega)]; omega
        · rw [if_neg hbc] at h2
          by_cases hcb : c.toNat < b.toNat
          · rw [if_pos hcb] at h2; omega
          · rw [if_neg hcb] at h2
            rw [if_neg (by omega), if_neg (by omega)]
            exact strcmpChars_trans as bs cs h1 h2

theorem strcmp_eq_zero (a b : String) : strcmp a b = 0 ↔ a = b := by
  unfold strcmp
  rw [strcmpChars_eq_zero, String.ext_iff]
  rfl

theorem qsort_fileNames_sorted (names : List String) :
    List.Sorted (fun a b => strcmp a b ≤ 0) (qsort_fileNames names) := by
  haveI : IsTotal String (fun a b => qsortCompare_fileNames a b ≤ 0) :=
    ⟨fun a b => strcmpChars_total a.toList b.toList⟩
  haveI : IsTrans String (fun a b => qsortCompare_fileNames a b ≤ 0) :=
    ⟨fun a b c => strcmpChars_trans a.toList b.toList c.toList⟩
  exact List.sorted_insertionSort (fun a b => qsortCompare_fileNames a b ≤ 0) names

theorem qsort_fileNames_perm (names : List String) :
    (qsort_fileNames names).Perm names :=
  List.perm_insertionSort _ names

theorem any_strcmp (paths : List String) (name : String) :
    paths.any (fun p => decide (strcmp p name = 0)) = true ↔ name ∈ paths := by
  rw [List.any_eq_true]
  constructor
  · rintro ⟨x, hx, h⟩
    rw [decide_eq_true_eq, strcmp_eq_zero] at h
    rw [← h]; exact hx
  · intro h
    exact ⟨name, h, by rw [decide_eq_true_eq, strcmp_eq_zero]⟩

theorem beginItem_files_eq (fs : FileSystem) (proc : Process) (item : MenuItemData)
    (files : FileData) (current : String)
    (hdata : item.data = ItemData.files files) (hcur : files.current = some current) :
    beginItem_files fs proc item =
      ((enumerateFiles fs proc files).1,
        some ({ item with
          setting := findCurrent
            (dropInitial files (splicePaths files (enumerateFiles fs proc files).2)) current
          maximum := ((((dropInitial files
            (splicePaths files (enumerateFiles fs proc files).2)).length : Int) - 1) % 256).toNat
          data := ItemData.files { files with
            paths := dropInitial files (splicePaths files (enumerateFiles fs proc files).2) } },
          true)) := by
  unfold beginItem_files
  rw [hdata]
  simp only [hcur]

theorem activatedPaths_eq (fs : FileSystem) (proc : Process) (item : MenuItemData)
    (files : FileData) (current : String)
    (hdata : item.data = ItemData.files files) (hcur : files.current = some current) :
    activatedPaths fs proc item
      = some (dropInitial files (splicePaths files (enumerateFiles fs proc files).2)) := by
  unfold activatedPaths
  rw [beginItem_files_eq fs proc item files current hdata hcur]
  rfl

theorem mem_qsort_fileNames (names : List String) (name : String) :
    name ∈ qsort_fileNames names ↔ name ∈ names :=
  (qsort_fileNames_perm names).mem_iff

theorem dropInitial_keep (files : FileData) (first : String) (rest : List String)
    (h : files.initial ∉ rest) : dropInitial files (first :: rest) = first :: rest := by
  unfold dropInitial
  rw [List.drop_one, List.tail_cons]
  have : ¬ (rest.any (fun p => decide (strcmp p files.initial = 0)) = true) := by
    rw [any_strcmp]; exact h
  rw [if_neg this]

theorem dropInitial_drop (files : FileData) (first : String) (rest : List String)
    (h : files.initial ∈ rest) : dropInitial files (first :: rest) = rest := by
  unfold dropInitial
  rw [List.drop_one, List.tail_cons]
  rw [if_pos ((any_strcmp rest files.initial).mpr h)]

theorem enumerateFiles_failed (fs : FileSystem) (proc : Process) (files : FileData)
    (h : fs.openOk = false ∨ fs.chdir proc.cwd files.directory = none ∨
      ∀ directory, fs.glob directory files.pattern = none) :
    (enumerateFiles fs proc files).2 = [] := by
  unfold enumerateFiles
  rcases h with h | h | h
  · simp [h]
  · simp only [h]
    split <;> rfl
  · split
    · split
      · simp only [h]
      · rfl
    · rfl

theorem dropInitial_length (files : FileData) (first : String) (rest : List String) :
    1 ≤ (dropInitial files (first :: rest)).length := by
  by_cases h : files.initial ∈ rest
  · rw [dropInitial_drop files first rest h]
    exact List.length_pos_of_mem h
  · rw [dropInitial_keep files first rest h]
    simp

theorem beginItem_files_success (fs : FileSystem) (proc : Process) (item : MenuItemData)
    (files : FileData) (current : String)
    (hdata : item.data = ItemData.files files) (hcur : files.current = some current) :
    ∃ item1, (beginItem_files fs proc item).2 = some (item1, true) ∧
      1 ≤ (candidatePaths item1).length ∧
      item1.maximum = ((candidatePaths item1).length - 1) % 256 ∧
      ((candidatePaths item1).length ≤ 256 →
        item1.maximum = (candidatePaths item1).length - 1) := by
  rw [beginItem_files_eq fs proc item files current hdata hcur]
  refine ⟨_, rfl, ?_, ?_, ?_⟩
  · exact dropInitial_length files _ _
  · have := dropInitial_length files files.initial
      (if files.none = true then "" :: qsort_fileNames (enumerateFiles fs proc files).2
        else qsort_fileNames (enumerateFiles fs proc files).2)
    simp only [candidatePaths, splicePaths] at this ⊢
    omega
  · have := dropInitial_length files files.initial
      (if files.none = true then "" :: qsort_fileNames (enumerateFiles fs proc files).2
        else qsort_fileNames (enumerateFiles fs proc files).2)
    simp only [candidatePaths, splicePaths] at this ⊢
    omega

theorem findCurrent_getElem (paths : List String) (current : String)
    (hmem : current ∈ paths) (hlen : paths.length ≤ 256) :
    paths[findCurrent paths current]? = some current := by
  unfold findCurrent
  cases hfind : paths.findIdx? (fun p => decide (strcmp p current = 0)) with
  | none =>
    rw [List.findIdx?_eq_none_iff] at hfind
    have := hfind current hmem
    simp [strcmp_eq_zero] at this
  | some i =>
    rw [List.findIdx?_eq_some_iff_getElem] at hfind
    obtain ⟨hi, hp, _⟩ := hfind
    rw [decide_eq_true_eq, strcmp_eq_zero] at hp
    simp only
    have : i % 256 = i := Nat.mod_eq_of_lt (by omega)
    rw [this, List.getElem?_eq_getElem hi, hp]

/-- Activation followed by deactivation keeps `current` when it is among at
most 256 candidates. -/
theorem endItem_beginItem_current (fs : FileSystem) (proc : Process) (item : MenuItemData)
    (files : FileData) (current : String)
    (hdata : item.data = ItemData.files files) (hcur : files.current = some current)
    (hmem : current ∈ dropInitial files (splicePaths files (enumerateFiles fs proc files).2))
    (hlen : (dropInitial files (splicePaths files (enumerateFiles fs proc files).2)).length
      ≤ 256) :
    ((beginItem_files fs proc item).2.bind (fun r => endItem_files r.1 false)).map currentValue
      = some (some current) := by
  rw [beginItem_files_eq fs proc item files current hdata hcur]
  simp only [Option.some_bind, endItem_files, Bool.false_eq_true, if_false]
  rw [findCurrent_getElem _ current hmem hlen]
  rfl

theorem findCurrent_first (paths : List String) (current : String) (i : Nat)
    (hfind : paths.findIdx? (fun p => decide (strcmp p current = 0)) = some i)
    (hi : i < 256) : findCurrent paths current = i := by
  unfold findCurrent
  rw [hfind]
  exact Nat.mod_eq_of_lt hi

theorem findCurrent_absent (paths : List String) (current : String)
    (hfind : current ∉ paths) : findCurrent paths current = 0 := by
  unfold findCurrent
  have : paths.findIdx? (fun p => decide (strcmp p current = 0)) = none := by
    rw [List.findIdx?_eq_none_iff]
    intro x hx
    simp only [decide_eq_false_iff_not, strcmp_eq_zero]
    intro h
    exact hfind (h ▸ hx)
  rw [this]

theorem beginItem_files_process (fs : FileSystem) (proc : Process) (item : MenuItemData)
    (files : FileData) (hdata : item.data = ItemData.files files) :
    (beginItem_files fs proc item).1 = (enumerateFiles fs proc files).1 := by
  unfold beginItem_files
  rw [hdata]
  simp only
  cases files.current <;> rfl

theorem enumerateFiles_entered (fs : FileSystem) (proc : Process) (files : FileData)
    (dir : String) (hopen : fs.openOk = true)
    (hchdir : fs.chdir proc.cwd files.directory = some dir) :
    (enumerateFiles fs proc files).1.calls
      = proc.calls ++ [Syscall.openCwd, Syscall.chdir files.directory,
          Syscall.glob files.pattern, Syscall.fchdir, Syscall.close] ∧
    (fs.fchdirOk = true → (enumerateFiles fs proc files).1.cwd = proc.cwd) ∧
    (fs.fchdirOk = false → (enumerateFiles fs proc files).1.cwd = dir) := by
  unfold enumerateFiles
  simp only [hopen, if_true, hchdir]
  cases fs.fchdirOk <;> simp

theorem enumerateFiles_not_entered (fs : FileSystem) (proc : Process) (files : FileData)
    (h : fs.openOk = false ∨ fs.chdir proc.cwd files.directory = none) :
    ((enumerateFiles fs proc files).1.calls = proc.calls ++ [Syscall.openCwd] ∨
      (enumerateFiles fs proc files).1.calls
        = proc.calls ++ [Syscall.openCwd, Syscall.chdir files.directory, Syscall.close]) ∧
    (enumerateFiles fs proc files).1.cwd = proc.cwd := by
  unfold enumerateFiles
  cases hopen : fs.openOk with
  | false => simp
  | true =>
    rcases h with h | h
    · rw [hopen] at h; cases h
    · simp [h]

theorem adjustMenuItemLoop_data (adjust : MenuItemData → MenuItemData)
    (hadj : SettingOnly adjust) (fuel : Nat) :
    ∀ (count : Int) (item result : MenuItemData) (left : Int),
      adjustMenuItemLoop adjust fuel count item = Outcome.done (result, left) →
      result.data = item.data := by
  induction fuel with
  | zero => intro count item result left h; simp [adjustMenuItemLoop] at h
  | succ n ih =>
    intro count item result left h
    rw [adjustMenuItemLoop] at h
    have hstep : (adjust item).data = item.data := by rw [hadj item]
    by_cases h0 : count - 1 = 0
    · rw [if_pos h0] at h
      simp only [Outcome.done.injEq, Prod.mk.injEq] at h
      rw [← h.1]; exact hstep
    · rw [if_neg h0] at h
      by_cases hd : (adjust item).divisor = 0
      · rw [if_pos hd] at h; cases h
      · rw [if_neg hd] at h
        split at h
        · exact (ih _ _ _ _ h).trans hstep
        · simp only [Outcome.done.injEq, Prod.mk.injEq] at h
          rw [← h.1]; exact hstep

theorem adjustMenuItem_data (adjust : MenuItemData → MenuItemData)
    (hadj : SettingOnly adjust) (fuel : Nat) (item result : MenuItemData) (status : Bool)
    (h : adjustMenuItem fuel item adjust = Outcome.done (result, status)) :
    result.data = item.data := by
  unfold adjustMenuItem at h
  cases hl : adjustMenuItemLoop adjust fuel
      ((item.maximum : Int) - (item.minimum : Int) + 1) item with
  | done r =>
    obtain ⟨r1, r2⟩ := r
    rw [hl] at h
    simp only [Outcome.done.injEq, Prod.mk.injEq] at h
    rw [← h.1]
    exact adjustMenuItemLoop_data adjust hadj fuel _ item r1 r2 hl
  | fault => rw [hl] at h; cases h
  | outOfFuel => rw [hl] at h; cases h

theorem inBounds_increment (item : MenuItemData) (h : InBounds item) :
    InBounds (incrementMenuItem item) := by
  obtain ⟨h1, h2, h3, h4, h5⟩ := h
  unfold incrementMenuItem
  split
  · exact ⟨(by show item.minimum < (candidatePaths item).length; omega),
      (by show item.minimum < 256; omega), h3, h4, h5⟩
  · exact ⟨(by show (item.setting + 1) % 256 < (candidatePaths item).length; omega),
      (by show (item.setting + 1) % 256 < 256; omega), h3, h4, h5⟩

theorem inBounds_decrement (item : MenuItemData) (h : InBounds item) :
    InBounds (decrementMenuItem item) := by
  obtain ⟨h1, h2, h3, h4, h5⟩ := h
  unfold decrementMenuItem
  split
  · exact ⟨h3, h4, h3, h4, h5⟩
  · exact ⟨(by show (item.setting + 255) % 256 < (candidatePaths item).length; omega),
      (by show (item.setting + 255) % 256 < 256; omega), h3, h4, h5⟩

theorem inBounds_adjustMenuItemLoop (adjust : MenuItemData → MenuItemData)
    (hadj : ∀ item, InBounds item → InBounds (adjust item)) (fuel : Nat) :
    ∀ (count : Int) (item result : MenuItemData) (left : Int), InBounds item →
      adjustMenuItemLoop adjust fuel count item = Outcome.done (result, left) →
      InBounds result := by
  induction fuel with
  | zero => intro count item result left _ h; simp [adjustMenuItemLoop] at h
  | succ n ih =>
    intro count item result left hin h
    rw [adjustMenuItemLoop] at h
    have hstep := hadj item hin
    by_cases h0 : count - 1 = 0
    · rw [if_pos h0] at h
      simp only [Outcome.done.injEq, Prod.mk.injEq] at h
      rw [← h.1]; exact hstep
    · rw [if_neg h0] at h
      by_cases hd : (adjust item).divisor = 0
      · rw [if_pos hd] at h; cases h
      · rw [if_neg hd] at h
        split at h
        · exact ih _ _ _ _ hstep h
        · simp only [Outcome.done.injEq, Prod.mk.injEq] at h
          rw [← h.1]; exact hstep

theorem inBounds_adjustMenuItem (adjust : MenuItemData → MenuItemData)
    (hadj : ∀ item, InBounds item → InBounds (adjust item)) (fuel : Nat)
    (item result : MenuItemData) (status : Bool) (hin : InBounds item)
    (h : adjustMenuItem fuel item adjust = Outcome.done (result, status)) :
    InBounds result := by
  unfold adjustMenuItem at h
  cases hl : adjustMenuItemLoop adjust fuel
      ((item.maximum : Int) - (item.minimum : Int) + 1) item with
  | done r =>
    obtain ⟨r1, r2⟩ := r
    rw [hl] at h
    simp only [Outcome.done.injEq, Prod.mk.injEq] at h
    rw [← h.1]
    exact inBounds_adjustMenuItemLoop adjust hadj fuel _ item r1 r2 hin hl
  | fault => rw [hl] at h; cases h
  | outOfFuel => rw [hl] at h; cases h

theorem inBounds_changeMenuItemScaled (rescaleInteger : Int → Int → Int → Option Int)
    (item result : MenuItem) (index count : Nat) (status : Bool)
    (hkind : item.methods.getValue = GetValue.getValue_files)
    (hin : InBounds item.toMenuItemData)
    (h : changeMenuItemScaled rescaleInteger item index count = some (result, status)) :
    InBounds result.toMenuItemData ∧ result.methods = item.methods ∧
    result.data = item.data := by
  obtain ⟨h1, h2, h3, h4, h5⟩ := hin
  have hval : scaledSetting rescaleInteger item index count
      = some (index % (item.maximum + 1) % 256) := by
    unfold scaledSetting
    rw [if_neg (by rw [hkind]; decide)]
  have hlt : index % (item.maximum + 1) < item.maximum + 1 := Nat.mod_lt _ (by omega)
  unfold changeMenuItemScaled at h
  rw [hval] at h
  simp only at h
  split at h
  · simp only [Option.some.injEq, Prod.mk.injEq] at h
    rw [← h.1]
    exact ⟨⟨h1, h2, h3, h4, h5⟩, rfl, rfl⟩
  · simp only [Option.some.injEq, Prod.mk.injEq] at h
    rw [← h.1]
    have hs : index % (item.maximum + 1) % 256 < (candidatePaths item.toMenuItemData).length := by
      omega
    have hs2 : index % (item.maximum + 1) % 256 < 256 := by omega
    exact ⟨⟨hs, hs2, h3, h4, h5⟩, rfl, rfl⟩

theorem inBounds_beginItem_files (fs : FileSystem) (proc : Process) (item : MenuItemData)
    (files : FileData) (current : String)
    (hdata : item.data = ItemData.files files) (hcur : files.current = some current)
    (hminimum : item.minimum = 0) :
    ∃ result, (beginItem_files fs proc item).2 = some (result, true) ∧ InBounds result := by
  rw [beginItem_files_eq fs proc item files current hdata hcur]
  refine ⟨_, rfl, ?_⟩
  have hlen := dropInitial_length files files.initial
    (if files.none = true then "" :: qsort_fileNames (enumerateFiles fs proc files).2
      else qsort_fileNames (enumerateFiles fs proc files).2)
  have hfind : findCurrent (dropInitial files (splicePaths files (enumerateFiles fs proc files).2))
      current < (dropInitial files (splicePaths files (enumerateFiles fs proc files).2)).length ∧
      findCurrent (dropInitial files (splicePaths files (enumerateFiles fs proc files).2))
        current < 256 := by
    unfold findCurrent
    cases hf : (dropInitial files (splicePaths files (enumerateFiles fs proc files).2)).findIdx?
        (fun p => decide (strcmp p current = 0)) with
    | none =>
      simp only [splicePaths] at hlen ⊢
      omega
    | some i =>
      rw [List.findIdx?_eq_some_iff_getElem] at hf
      obtain ⟨hi, _⟩ := hf
      simp only
      omega
  unfold InBounds
  simp only [candidatePaths, splicePaths] at hlen hfind ⊢
  refine ⟨hfind.1, hfind.2, ?_, ?_, hminimum⟩ <;> omega

/-- Whatever sequence of stepping calls follows an activation, the setting of
a file-selection item indexes inside its candidate list, so that the lookups
of `getValue_files` and `endItem_files` succeed. -/
theorem steppedFrom_inBounds (rescaleInteger : Int → Int → Int → Option Int)
    (start item : MenuItem)
    (hkind : start.methods.getValue = GetValue.getValue_files)
    (hstart : InBounds start.toMenuItemData)
    (hfiles : ∃ files, start.data = ItemData.files files)
    (h : SteppedFrom rescaleInteger start item) :
    InBounds item.toMenuItemData ∧
    (∃ path, getValue_files item.toMenuItemData true = some path) ∧
    (∃ result, endItem_files item.toMenuItemData false = some result) := by
  have key : InBounds item.toMenuItemData ∧ item.methods = start.methods ∧
      candidatePaths item.toMenuItemData = candidatePaths start.toMenuItemData ∧
      ∃ files, item.data = ItemData.files files := by
    induction h with
    | start => exact ⟨hstart, rfl, rfl, hfiles⟩
    | next it result fuel status _ hrun ih =>
      obtain ⟨i1, i2, i3, i4⟩ := ih
      have hb := inBounds_adjustMenuItem incrementMenuItem inBounds_increment fuel _ result
        status i1 hrun
      have hd := adjustMenuItem_data incrementMenuItem settingOnly_increment fuel _ result
        status hrun
      exact ⟨hb, i2, by show candidatePaths result = _; rw [← i3]; unfold candidatePaths; rw [hd],
        by obtain ⟨files, hf⟩ := i4; exact ⟨files, by show result.data = _; rw [hd]; exact hf⟩⟩
    | previous it result fuel status _ hrun ih =>
      obtain ⟨i1, i2, i3, i4⟩ := ih
      have hb := inBounds_adjustMenuItem decrementMenuItem inBounds_decrement fuel _ result
        status i1 hrun
      have hd := adjustMenuItem_data decrementMenuItem settingOnly_decrement fuel _ result
        status hrun
      exact ⟨hb, i2, by show candidatePaths result = _; rw [← i3]; unfold candidatePaths; rw [hd],
        by obtain ⟨files, hf⟩ := i4; exact ⟨files, by show result.data = _; rw [hd]; exact hf⟩⟩
    | scaled it result index count status _ hrun ih =>
      obtain ⟨i1, i2, i3, i4⟩ := ih
      obtain ⟨hb, hm, hdata⟩ := inBounds_changeMenuItemScaled rescaleInteger it result index
        count status (by rw [i2]; exact hkind) i1 hrun
      exact ⟨hb, hm.trans i2, by rw [← i3]; unfold candidatePaths; rw [hdata],
        by obtain ⟨files, hf⟩ := i4; exact ⟨files, by rw [hdata]; exact hf⟩⟩
  obtain ⟨k1, _, _, files, k4⟩ := key
  have hlook : ∃ path, files.paths[item.setting]? = some path := by
    have hlt : item.setting < files.paths.length := by
      have := k1.1
      unfold candidatePaths at this
      rw [k4] at this
      exact this
    exact ⟨_, List.getElem?_eq_getElem hlt⟩
  obtain ⟨path, hpath⟩ := hlook
  refine ⟨k1, ⟨path, ?_⟩,
    ⟨{ item.toMenuItemData with data := ItemData.files { files with current := some path } },
      ?_⟩⟩
  · unfold getValue_files
    rw [k4]
    simp only [if_true]
    exact hpath
  · unfold endItem_files
    rw [k4]
    simp only [Bool.false_eq_true, if_false, hpath]

/-! ## Claims -/

/-- C1, as stated, fails: on the one-item menu whose only item is ineligible,
with the cursor on it, no amount of fuel lets `setMenuNextItem`,
`setMenuPreviousItem`, `setMenuFirstItem` or `setMenuLastItem` return. -/
theorem C1_counterexample :
    ¬ ∃ fuel : Nat,
      setMenuNextItem fuel (sampleMenu [some false] 0) ≠ none ∨
      setMenuPreviousItem fuel (sampleMenu [some false] 0) ≠ none ∨
      setMenuFirstItem fuel (sampleMenu [some false] 0) ≠ none ∨
      setMenuLastItem fuel (sampleMenu [some false] 0) ≠ none := by
  have hin : ∀ it ∈ (sampleMenu [some false] 0).items, it.test = some false := by
    intro it hit
    simp only [sampleMenu, List.map, List.mem_cons, List.mem_nil_iff, or_false] at hit
    rw [hit]
    rfl
  rintro ⟨fuel, h⟩
  have h1 : setMenuNextItem fuel (sampleMenu [some false] 0) = none := by
    unfold setMenuNextItem
    rw [if_neg (by decide), setMenuNextItemLoop_ineligible fuel _ hin]
    rfl
  have h2 : setMenuPreviousItem fuel (sampleMenu [some false] 0) = none :=
    setMenuPreviousItem_ineligible fuel _ (by decide) hin
  have h3 : setMenuFirstItem fuel (sampleMenu [some false] 0) = none := by
    unfold setMenuFirstItem
    rw [if_neg (by decide)]
    simp only
    rw [if_neg (by decide)]
    exact h1
  have h4 : setMenuLastItem fuel (sampleMenu [some false] 0) = none := by
    unfold setMenuLastItem
    rw [if_neg (by decide)]
    simp only
    rw [if_neg (by decide)]
    exact h2
  rcases h with h | h | h | h
  · exact h h1
  · exact h h2
  · exact h h3
  · exact h h4

/-- C1, amended: on a non-empty menu in which every item's tester returns
false, `setMenuNextItem` returns failure with the menu unchanged when the
cursor is at or past `count`; from a cursor below `count` it does not return
for any fuel, and `setMenuPreviousItem`, `setMenuFirstItem` and
`setMenuLastItem` do not return for any fuel from any cursor. -/
theorem C1_no_eligible_item (menu : Menu) (fuel : Nat)
    (hcount : menu.count ≠ 0)
    (hnone : ∀ it ∈ menu.items, it.test = some false) :
    (menu.index ≥ menu.count → setMenuNextItem fuel menu = some (menu, false)) ∧
    (menu.index < menu.count → setMenuNextItem fuel menu = none) ∧
    setMenuPreviousItem fuel menu = none ∧
    setMenuFirstItem fuel menu = none ∧
    setMenuLastItem fuel menu = none := by
  refine ⟨?_, ?_, ?_, ?_, ?_⟩
  · intro h
    unfold setMenuNextItem
    rw [if_pos h]
  · intro h
    unfold setMenuNextItem
    rw [if_neg (by omega), setMenuNextItemLoop_ineligible fuel _ hnone]
    rfl
  · exact setMenuPreviousItem_ineligible fuel _ hcount hnone
  · unfold setMenuFirstItem
    rw [if_neg hcount]
    simp only
    rw [testMenuItem_mk_ineligible _ hnone]
    simp only [Bool.false_eq_true, if_false]
    have hlt : ¬ ((0 : Nat) ≥
        ({ menu with index := 0 } : Menu).count) := by
      show ¬ (0 ≥ menu.count)
      omega
    unfold setMenuNextItem
    rw [if_neg hlt, setMenuNextItemLoop_ineligible fuel { menu with index := 0 } hnone]
    rfl
  · unfold setMenuLastItem
    rw [if_neg hcount]
    simp only
    rw [testMenuItem_mk_ineligible _ hnone]
    simp only [Bool.false_eq_true, if_false]
    exact setMenuPreviousItem_ineligible fuel _ hcount hnone

/-- C1, amended, on the two-item menu of ineligible items with the cursor on
the second item. -/
theorem C1_no_eligible_item_witness :
    (sampleMenu [some false, some false] 1).count ≠ 0 ∧
    (∀ it ∈ (sampleMenu [some false, some false] 1).items, it.test = some false) ∧
    setMenuNextItem 5 (sampleMenu [some false, some false] 1) = none ∧
    setMenuPreviousItem 5 (sampleMenu [some false, some false] 1) = none :=
  have hc : (sampleMenu [some false, some false] 1).count ≠ 0 := by decide
  have hn : ∀ it ∈ (sampleMenu [some false, some false] 1).items, it.test = some false := by
    intro it hit
    simp only [sampleMenu, List.map, List.mem_cons, List.mem_nil_iff, or_false] at hit
    rcases hit with hit | hit <;> rw [hit] <;> rfl
  ⟨hc, hn,
    (C1_no_eligible_item (sampleMenu [some false, some false] 1) 5 hc hn).2.1 (by decide),
    (C1_no_eligible_item (sampleMenu [some false, some false] 1) 5 hc hn).2.2.1⟩

/-- C2: whenever `setMenuFirstItem`, `setMenuLastItem`, `setMenuNextItem` or
`setMenuPreviousItem` returns success, the items are the ones of the call,
the resulting cursor is below `count`, and the item at the cursor has no
tester or a tester that returns true. -/
theorem C2_success_lands_on_eligible (menu result : Menu) (fuel : Nat)
    (h : setMenuFirstItem fuel menu = some (result, true) ∨
         setMenuLastItem fuel menu = some (result, true) ∨
         setMenuNextItem fuel menu = some (result, true) ∨
         setMenuPreviousItem fuel menu = some (result, true)) :
    result.items = menu.items ∧ result.index < result.count ∧
    ∃ item, result.items[result.index]? = some item ∧
      (item.test = none ∨ item.test = some true) := by
  have key : result.items = menu.items ∧ testMenuItem result result.index = true := by
    rcases h with h | h | h | h
    · exact setMenuFirstItem_some fuel menu result h
    · exact setMenuLastItem_some fuel menu result h
    · exact setMenuNextItem_some fuel menu result h
    · exact setMenuPreviousItem_some fuel menu result h
  obtain ⟨h1, h2⟩ := key
  obtain ⟨h3, item, h4, h5⟩ := testMenuItem_true result result.index h2
  exact ⟨h1, h3, item, h4, h5⟩

/-- C2 on a three-item menu whose first item is ineligible: `setMenuNextItem`
from the cursor on the last item wraps around and succeeds on the second
item. -/
theorem C2_success_lands_on_eligible_witness :
    setMenuNextItem 3 (sampleMenu [some false, none, some true] 2)
      = some (sampleMenu [some false, none, some true] 1, true) ∧
    (sampleMenu [some false, none, some true] 1).index
      < (sampleMenu [some false, none, some true] 1).count ∧
    ∃ item, (sampleMenu [some false, none, some true] 1).items[
        (sampleMenu [some false, none, some true] 1).index]? = some item ∧
      (item.test = none ∨ item.test = some true) :=
  ⟨rfl,
    (C2_success_lands_on_eligible (sampleMenu [some false, none, some true] 2)
      (sampleMenu [some false, none, some true] 1) 3 (Or.inr (Or.inr (Or.inl rfl)))).2⟩

/-- C3: from a setting inside the bounds and a non-zero divisor, each of
`changeMenuItemNext` and `changeMenuItemPrevious` returns, touching the
setting only; on success the new setting is inside the bounds, a multiple of
the divisor and accepted by the `changed` callback, and on failure it is the
setting before the call. -/
theorem C3_step_postcondition (item : MenuItemData) (fuel : Nat)
    (hmin : item.minimum ≤ item.setting) (hmax : item.setting ≤ item.maximum)
    (hbyte : item.maximum < 256) (hdiv : 1 ≤ item.divisor)
    (hfuel : item.maximum - item.minimum + 1 ≤ fuel) :
    (∃ v status, changeMenuItemNext fuel item
        = Outcome.done ({ item with setting := v }, status) ∧
      (status = true → item.minimum ≤ v ∧ v ≤ item.maximum ∧ v % item.divisor = 0 ∧
        ∀ changed, item.changed = some changed → changed v = true) ∧
      (status = false → v = item.setting)) ∧
    (∃ v status, changeMenuItemPrevious fuel item
        = Outcome.done ({ item with setting := v }, status) ∧
      (status = true → item.minimum ≤ v ∧ v ≤ item.maximum ∧ v % item.divisor = 0 ∧
        ∀ changed, item.changed = some changed → changed v = true) ∧
      (status = false → v = item.setting)) := by
  have hveto : ∀ v, vetoed item v = false →
      ∀ changed, item.changed = some changed → changed v = true := by
    intro v hv changed hc
    unfold vetoed at hv
    rw [hc] at hv
    simpa using hv
  constructor
  · obtain ⟨v, status, heq, hcase⟩ := adjustMenuItem_spec incrementMenuItem
      (incrementedSetting item) item fuel settingOnly_increment
      (increment_iterate item hmin hmax hbyte) (by omega) hdiv hfuel
    refine ⟨v, status, heq, ?_, ?_⟩
    · intro hs
      rcases hcase with ⟨_, j, hj1, hj2, hv, hacc, _⟩ | ⟨hf, _⟩
      · have hr := incrementedSetting_range item hmin hmax j (by omega)
        rw [hv]
        exact ⟨hr.1, hr.2.1, hacc.1, hveto _ hacc.2⟩
      · rw [hs] at hf; cases hf
    · intro hs
      rcases hcase with ⟨ht, _⟩ | ⟨_, hv, _⟩
      · rw [hs] at ht; cases ht
      · rw [hv]
        exact (incrementedSetting_range item hmin hmax _ (le_refl _)).2.2.2 rfl
  · obtain ⟨v, status, heq, hcase⟩ := adjustMenuItem_spec decrementMenuItem
      (decrementedSetting item) item fuel settingOnly_decrement
      (decrement_iterate item hmin hmax hbyte) (by omega) hdiv hfuel
    refine ⟨v, status, heq, ?_, ?_⟩
    · intro hs
      rcases hcase with ⟨_, j, hj1, hj2, hv, hacc, _⟩ | ⟨hf, _⟩
      · have hr := decrementedSetting_range item hmin hmax j (by omega)
        rw [hv]
        exact ⟨hr.1, hr.2.1, hacc.1, hveto _ hacc.2⟩
      · rw [hs] at hf; cases hf
    · intro hs
      rcases hcase with ⟨ht, _⟩ | ⟨_, hv, _⟩
      · rw [hs] at ht; cases ht
      · rw [hv]
        exact (decrementedSetting_range item hmin hmax _ (le_refl _)).2.2.2 rfl

/-- C3 on the item with setting 3 in 0..9, divisor 5 and a callback that
rejects 5: stepping up and down both return. -/
theorem C3_step_postcondition_witness :
    (sampleSetting 3 0 9 5 (some (fun v => decide (v ≠ 5)))).minimum ≤ 3 ∧
    3 ≤ (sampleSetting 3 0 9 5 (some (fun v => decide (v ≠ 5)))).maximum ∧
    changeMenuItemNext 10 (sampleSetting 3 0 9 5 (some (fun v => decide (v ≠ 5))))
      = Outcome.done (sampleSetting 0 0 9 5 (some (fun v => decide (v ≠ 5))), true) ∧
    ∃ v status, changeMenuItemPrevious 10 (sampleSetting 3 0 9 5 (some (fun v => decide (v ≠ 5))))
        = Outcome.done
            ({ sampleSetting 3 0 9 5 (some (fun v => decide (v ≠ 5))) with setting := v }, status) ∧
      (status = true → (sampleSetting 3 0 9 5 (some (fun v => decide (v ≠ 5)))).minimum ≤ v ∧
        v ≤ (sampleSetting 3 0 9 5 (some (fun v => decide (v ≠ 5)))).maximum ∧
        v % (sampleSetting 3 0 9 5 (some (fun v => decide (v ≠ 5)))).divisor = 0 ∧
        ∀ changed, (sampleSetting 3 0 9 5 (some (fun v => decide (v ≠ 5)))).changed = some changed →
          changed v = true) ∧
      (status = false → v = (sampleSetting 3 0 9 5 (some (fun v => decide (v ≠ 5)))).setting) :=
  ⟨by decide, by decide, rfl,
    (C3_step_postcondition (sampleSetting 3 0 9 5 (some (fun v => decide (v ≠ 5)))) 10
      (by decide) (by decide) (by decide) (by decide) (by decide)).2⟩

/-- C4, as stated, fails: the item with setting 0 in 0..1 and divisor 2 has
the acceptable value 0 inside its bounds, yet `changeMenuItemNext` reports
success for no amount of fuel. -/
theorem C4_counterexample :
    ¬ ((∃ v, (sampleSetting 0 0 1 2 none).minimum ≤ v ∧ v ≤ (sampleSetting 0 0 1 2 none).maximum ∧
          v % (sampleSetting 0 0 1 2 none).divisor = 0 ∧
          vetoed (sampleSetting 0 0 1 2 none) v = false) →
        ∃ fuel item1, changeMenuItemNext fuel (sampleSetting 0 0 1 2 none)
          = Outcome.done (item1, true)) := by
  intro h
  obtain ⟨fuel, item1, hrun⟩ := h ⟨0, by decide, by decide, by decide, rfl⟩
  match fuel, hrun with
  | 0, hrun => cases hrun
  | 1, hrun => cases hrun
  | n + 2, hrun =>
    have heq : changeMenuItemNext (n + 2) (sampleSetting 0 0 1 2 none)
        = Outcome.done (sampleSetting 0 0 1 2 none, false) := rfl
    rw [heq] at hrun
    cases hrun

/-- C4, amended: from a setting inside the bounds and a non-zero divisor, each
of `changeMenuItemNext` and `changeMenuItemPrevious` returns, and it reports
success exactly when some value inside the bounds other than the setting
before the call is a multiple of the divisor and accepted by the `changed`
callback. -/
theorem C4_success_iff_other_candidate (item : MenuItemData) (fuel : Nat)
    (hmin : item.minimum ≤ item.setting) (hmax : item.setting ≤ item.maximum)
    (hbyte : item.maximum < 256) (hdiv : 1 ≤ item.divisor)
    (hfuel : item.maximum - item.minimum + 1 ≤ fuel) :
    (∃ v status, changeMenuItemNext fuel item
        = Outcome.done ({ item with setting := v }, status) ∧
      (status = true ↔ ∃ w, item.minimum ≤ w ∧ w ≤ item.maximum ∧ w ≠ item.setting ∧
        w % item.divisor = 0 ∧ vetoed item w = false)) ∧
    (∃ v status, changeMenuItemPrevious fuel item
        = Outcome.done ({ item with setting := v }, status) ∧
      (status = true ↔ ∃ w, item.minimum ≤ w ∧ w ≤ item.maximum ∧ w ≠ item.setting ∧
        w % item.divisor = 0 ∧ vetoed item w = false)) := by
  constructor
  · obtain ⟨v, status, heq, hcase⟩ := adjustMenuItem_spec incrementMenuItem
      (incrementedSetting item) item fuel settingOnly_increment
      (increment_iterate item hmin hmax hbyte) (by omega) hdiv hfuel
    refine ⟨v, status, heq, ?_⟩
    rcases hcase with ⟨ht, j, hj1, hj2, _, hacc, _⟩ | ⟨hf, _, hrej⟩
    · have hr := incrementedSetting_range item hmin hmax j (by omega)
      exact ⟨fun _ => ⟨_, hr.1, hr.2.1, hr.2.2.1 hj1 hj2, hacc.1, hacc.2⟩, fun _ => ht⟩
    · constructor
      · intro hs; rw [hs] at hf; cases hf
      · rintro ⟨w, hw1, hw2, hw3, hw4, hw5⟩
        obtain ⟨j, hj1, hj2, hj3⟩ := incrementedSetting_reaches item hmin hmax w hw1 hw2 hw3
        exact absurd (show accepts item (incrementedSetting item j) by
          rw [hj3]; exact ⟨hw4, hw5⟩) (hrej j hj1 hj2)
  · obtain ⟨v, status, heq, hcase⟩ := adjustMenuItem_spec decrementMenuItem
      (decrementedSetting item) item fuel settingOnly_decrement
      (decrement_iterate item hmin hmax hbyte) (by omega) hdiv hfuel
    refine ⟨v, status, heq, ?_⟩
    rcases hcase with ⟨ht, j, hj1, hj2, _, hacc, _⟩ | ⟨hf, _, hrej⟩
    · have hr := decrementedSetting_range item hmin hmax j (by omega)
      exact ⟨fun _ => ⟨_, hr.1, hr.2.1, hr.2.2.1 hj1 hj2, hacc.1, hacc.2⟩, fun _ => ht⟩
    · constructor
      · intro hs; rw [hs] at hf; cases hf
      · rintro ⟨w, hw1, hw2, hw3, hw4, hw5⟩
        obtain ⟨j, hj1, hj2, hj3⟩ := decrementedSetting_reaches item hmin hmax w hw1 hw2 hw3
        exact absurd (show accepts item (decrementedSetting item j) by
          rw [hj3]; exact ⟨hw4, hw5⟩) (hrej j hj1 hj2)

/-- C4, amended, on the item with setting 0 in 0..1 and divisor 2: the only
acceptable value is the setting itself, and both directions report
failure. -/
theorem C4_success_iff_other_candidate_witness :
    (sampleSetting 0 0 1 2 none).minimum ≤ (sampleSetting 0 0 1 2 none).setting ∧
    changeMenuItemPrevious 2 (sampleSetting 0 0 1 2 none)
      = Outcome.done (sampleSetting 0 0 1 2 none, false) ∧
    ∃ v status, changeMenuItemNext 2 (sampleSetting 0 0 1 2 none)
        = Outcome.done ({ sampleSetting 0 0 1 2 none with setting := v }, status) ∧
      (status = true ↔ ∃ w, (sampleSetting 0 0 1 2 none).minimum ≤ w ∧
        w ≤ (sampleSetting 0 0 1 2 none).maximum ∧ w ≠ (sampleSetting 0 0 1 2 none).setting ∧
        w % (sampleSetting 0 0 1 2 none).divisor = 0 ∧
        vetoed (sampleSetting 0 0 1 2 none) w = false) :=
  ⟨by decide, rfl,
    (C4_success_iff_other_candidate (sampleSetting 0 0 1 2 none) 2
      (by decide) (by decide) (by decide) (by decide) (by decide)).1⟩

/-- C5, as stated, fails: after two appends, a `getCurrentMenuItem` call and a
`setMenuNextItem` call the active item is item 0 while the cursor is 1. -/
theorem C5_counterexample :
    ¬ ∀ menu : Menu, Reachable menu →
      ∀ p, menu.activeItem = some p → p = cursorPtr menu := by
  intro h
  have r0 : Reachable (newMenuItem newMenu (sampleItem none) 1).1 :=
    Reachable.append _ _ _ Reachable.newMenu
  have r1 := Reachable.append _ (sampleItem none) 1 r0
  have r2 : Reachable
      { array := 1, items := [sampleItem none, sampleItem none], size := 16, index := 0,
        activeItem := some { block := 1, index := 0 } } :=
    Reachable.current _ _ (some { block := 1, index := 0 }) [] r1 rfl
  have r3 : Reachable
      { array := 1, items := [sampleItem none, sampleItem none], size := 16, index := 1,
        activeItem := some { block := 1, index := 0 } } :=
    Reachable.next _ _ 1 true r2 rfl
  have := h _ r3 { block := 1, index := 0 } rfl
  exact absurd this (by decide)

/-- C5, amended: in every reachable state the active item, if set, has an index
below `count`, and is an item of the menu as long as the array still occupies
the block the active item points into.  A `getCurrentMenuItem` call that
returns keeps the cursor and leaves the active item, if set, equal to the
pointer to the item at the cursor, which is an item of the menu.  A navigation
call that returns leaves the active item, the items and the array block as
they were, and an append leaves the active item as it was, whatever block
`realloc` returns. -/
theorem C5_active_item (menu : Menu) (hreach : Reachable menu) :
    (∀ p, menu.activeItem = some p →
      p.index < menu.count ∧
      (p.block = menu.array → ∃ item, itemAt menu p = some item)) ∧
    (∀ result r calls, getCurrentMenuItem menu = some (result, r, calls) →
      result.index = menu.index ∧
      ∀ p, result.activeItem = some p →
        p = cursorPtr result ∧ ∃ item, itemAt result p = some item) ∧
    (∀ fuel result status,
      (setMenuFirstItem fuel menu = some (result, status) ∨
       setMenuLastItem fuel menu = some (result, status) ∨
       setMenuNextItem fuel menu = some (result, status) ∨
       setMenuPreviousItem fuel menu = some (result, status)) →
      result.activeItem = menu.activeItem ∧ result.items = menu.items ∧
      result.array = menu.array) ∧
    (∀ item newArray,
      (newMenuItem menu item newArray).1.activeItem = menu.activeItem) := by
  refine ⟨?_, ?_, ?_, ?_⟩
  · intro p hp
    have hlt := reachable_activeItem menu hreach p hp
    refine ⟨hlt, ?_⟩
    intro hblock
    unfold itemAt
    rw [if_pos hblock]
    have hlt2 : p.index < menu.items.length := hlt
    exact ⟨_, List.getElem?_eq_getElem hlt2⟩
  · intro result r calls hrun
    obtain ⟨h1, h2, _, h4, _, h6⟩ := getCurrentMenuItem_frame menu result r calls hrun
    refine ⟨h1, ?_⟩
    intro p hp
    rcases h6 with h6 | h6
    · rw [h6] at hp
      obtain ⟨hptr, hlt⟩ := getMenuItem_some menu menu.index p hp
      have hcur : p = cursorPtr result := by
        rw [hptr]
        unfold cursorPtr
        rw [h1, h4]
      refine ⟨hcur, ?_⟩
      rw [hcur]
      unfold cursorPtr
      rw [itemAt_current]
      have hlt2 : result.index < result.items.length := by
        have : result.items.length = menu.items.length := h2
        rw [h1, this]
        exact hlt
      exact ⟨_, List.getElem?_eq_getElem hlt2⟩
    · rw [h6] at hp; cases hp
  · intro fuel result status hrun
    have hs : SameItems menu result := by
      rcases hrun with h | h | h | h
      · exact setMenuFirstItem_frame fuel menu result status h
      · exact setMenuLastItem_frame fuel menu result status h
      · exact setMenuNextItem_frame fuel menu result status h
      · exact setMenuPreviousItem_frame fuel menu result status h
    exact ⟨hs.2.2.1, hs.1, hs.2.2.2⟩
  · intro item newArray
    exact (newMenuItem_frame menu item newArray).1

/-- C5, amended, on two reachable menus with an active item.  On the menu whose
cursor was moved to the second item while the first is active, the active item
is the first item of the menu, and `getCurrentMenuItem` makes the second item
the active one.  On the menu whose array was moved by the 17th append while
the first item was active, the active item has an index below `count` and
points into the former block: it is no item of the menu, and
`getCurrentMenuItem` cannot dereference it. -/
theorem C5_active_item_witness :
    Reachable movedOnMenu ∧
    movedOnMenu.activeItem = some { block := 1, index := 0 } ∧
    movedOnMenu.index = 1 ∧
    (0 < movedOnMenu.count ∧
      ((1 : Nat) = movedOnMenu.array →
        ∃ item, itemAt movedOnMenu { block := 1, index := 0 } = some item)) ∧
    getCurrentMenuItem movedOnMenu
      = some ({ movedOnMenu with activeItem := some { block := 1, index := 1 } },
          some { block := 1, index := 1 }, []) ∧
    (∀ result r calls, getCurrentMenuItem movedOnMenu = some (result, r, calls) →
      result.index = 1 ∧
      ∀ p, result.activeItem = some p →
        p = cursorPtr result ∧ ∃ item, itemAt result p = some item) ∧
    Reachable staleMenu ∧
    staleMenu.activeItem = some { block := 1, index := 0 } ∧
    staleMenu.array = 2 ∧
    itemAt staleMenu { block := 1, index := 0 } = none ∧
    getCurrentMenuItem staleMenu = none ∧
    (0 < staleMenu.count ∧
      ((1 : Nat) = staleMenu.array →
        ∃ item, itemAt staleMenu { block := 1, index := 0 } = some item)) :=
  ⟨reachable_movedOnMenu, rfl, rfl,
    (C5_active_item movedOnMenu reachable_movedOnMenu).1 _ rfl, rfl,
    (C5_active_item movedOnMenu reachable_movedOnMenu).2.1,
    reachable_staleMenu, rfl, rfl, rfl, rfl,
    (C5_active_item staleMenu reachable_staleMenu).1 _ rfl⟩

/-- C7, as stated, fails: with the `none` flag set, initial value `a.cfg` and
the listing `b.cfg`, activation does not yield the empty entry, then `a.cfg`,
then the sorted listing. -/
theorem C7_counterexample :
    ¬ (activatedPaths (sampleFs (some ["b.cfg"])) sampleProcess (sampleFilesItem "a.cfg" true)
        = some ("" :: "a.cfg" :: qsort_fileNames ["b.cfg"])) := by
  decide

/-- C7, amended: with the `none` flag set, a non-empty initial value and a
listing `names` that does not contain it, activation yields the initial
value, then the empty entry, then the listing in ascending `strcmp` order:
the empty entry is immediately before the listing and the initial entry is
before the empty entry. -/
theorem C7_splice_order (fs : FileSystem) (proc : Process) (item : MenuItemData)
    (files : FileData) (current : String) (names : List String)
    (hdata : item.data = ItemData.files files) (hcur : files.current = some current)
    (hnames : (enumerateFiles fs proc files).2 = names)
    (hnone : files.none = true) (hinitial : files.initial ≠ "")
    (hnew : files.initial ∉ names) :
    activatedPaths fs proc item = some (files.initial :: "" :: qsort_fileNames names) ∧
    List.Sorted (fun a b => strcmp a b ≤ 0) (qsort_fileNames names) ∧
    (qsort_fileNames names).Perm names := by
  refine ⟨?_, qsort_fileNames_sorted names, qsort_fileNames_perm names⟩
  rw [activatedPaths_eq fs proc item files current hdata hcur, hnames]
  unfold splicePaths
  simp only [hnone, if_true]
  rw [dropInitial_keep]
  intro hmem
  rcases List.mem_cons.mp hmem with h | h
  · exact hinitial h
  · exact hnew ((mem_qsort_fileNames names _).mp h)

/-- C7, amended, on the initial value `a.cfg` with the listing `c.cfg`,
`b.cfg`. -/
theorem C7_splice_order_witness :
    (sampleFilesItem "a.cfg" true).data = ItemData.files
      { directory := "/etc/brltty", extension := ".cfg", pattern := "*.cfg", initial := "a.cfg"
        current := some "a.cfg", none := true, paths := [] } ∧
    activatedPaths (sampleFs (some ["c.cfg", "b.cfg"])) sampleProcess (sampleFilesItem "a.cfg" true)
      = some ["a.cfg", "", "b.cfg", "c.cfg"] :=
  ⟨by decide,
    (C7_splice_order (sampleFs (some ["c.cfg", "b.cfg"])) sampleProcess
      (sampleFilesItem "a.cfg" true)
      { directory := "/etc/brltty", extension := ".cfg", pattern := "*.cfg", initial := "a.cfg"
        current := some "a.cfg", none := true, paths := [] }
      "a.cfg" ["c.cfg", "b.cfg"] (by decide) rfl (by decide) rfl (by decide) (by decide)).1⟩

/-- C8: without the `none` flag, activation yields the listing in ascending
`strcmp` order when the listing contains the initial value, and the initial
value followed by the sorted listing otherwise; it yields the initial value
alone when the listing is empty, which is the case when the working directory
cannot be opened, the directory cannot be entered or `glob` fails. -/
theorem C8_candidates_without_none (fs : FileSystem) (proc : Process) (item : MenuItemData)
    (files : FileData) (current : String) (names : List String)
    (hdata : item.data = ItemData.files files) (hcur : files.current = some current)
    (hnames : (enumerateFiles fs proc files).2 = names)
    (hnone : files.none = false) :
    (files.initial ∈ names → activatedPaths fs proc item = some (qsort_fileNames names)) ∧
    (files.initial ∉ names →
      activatedPaths fs proc item = some (files.initial :: qsort_fileNames names)) ∧
    (names = [] → activatedPaths fs proc item = some [files.initial]) ∧
    ((fs.openOk = false ∨ fs.chdir proc.cwd files.directory = none ∨
        ∀ directory, fs.glob directory files.pattern = none) →
      activatedPaths fs proc item = some [files.initial]) ∧
    List.Sorted (fun a b => strcmp a b ≤ 0) (qsort_fileNames names) ∧
    (qsort_fileNames names).Perm names := by
  have hpaths : activatedPaths fs proc item
      = some (dropInitial files (files.initial :: qsort_fileNames names)) := by
    rw [activatedPaths_eq fs proc item files current hdata hcur, hnames]
    unfold splicePaths
    simp [hnone]
  have hempty : names = [] → activatedPaths fs proc item = some [files.initial] := by
    intro h
    rw [hpaths, h]
    have : qsort_fileNames [] = [] := rfl
    rw [this, dropInitial_keep files _ [] (List.not_mem_nil _)]
  refine ⟨?_, ?_, hempty, ?_, qsort_fileNames_sorted names, qsort_fileNames_perm names⟩
  · intro h
    rw [hpaths, dropInitial_drop files _ _ ((mem_qsort_fileNames names _).mpr h)]
  · intro h
    rw [hpaths, dropInitial_keep files _ _ (fun hm => h ((mem_qsort_fileNames names _).mp hm))]
  · intro h
    apply hempty
    rw [← hnames]
    exact enumerateFiles_failed fs proc files h

/-- C8 on the initial value `foo.cfg` with the listing `foo.cfg`, `bar.cfg`: the
candidates are `bar.cfg`, `foo.cfg`. -/
theorem C8_candidates_without_none_witness :
    (sampleFilesItem "foo.cfg" false).data = ItemData.files
      { directory := "/etc/brltty", extension := ".cfg", pattern := "*.cfg"
        initial := "foo.cfg", current := some "foo.cfg", none := false, paths := [] } ∧
    activatedPaths (sampleFs (some ["foo.cfg", "bar.cfg"])) sampleProcess
      (sampleFilesItem "foo.cfg" false) = some ["bar.cfg", "foo.cfg"] ∧
    activatedPaths unreadableFs sampleProcess (sampleFilesItem "foo.cfg" false)
      = some ["foo.cfg"] :=
  ⟨by decide,
    (C8_candidates_without_none (sampleFs (some ["foo.cfg", "bar.cfg"])) sampleProcess
      (sampleFilesItem "foo.cfg" false)
      { directory := "/etc/brltty", extension := ".cfg", pattern := "*.cfg"
        initial := "foo.cfg", current := some "foo.cfg", none := false, paths := [] }
      "foo.cfg" ["foo.cfg", "bar.cfg"] (by decide) rfl (by decide) rfl).1 (by decide),
    (C8_candidates_without_none unreadableFs sampleProcess
      (sampleFilesItem "foo.cfg" false)
      { directory := "/etc/brltty", extension := ".cfg", pattern := "*.cfg"
        initial := "foo.cfg", current := some "foo.cfg", none := false, paths := [] }
      "foo.cfg" [] (by decide) rfl (by decide) rfl).2.2.2.1 (Or.inr (Or.inl rfl))⟩

set_option maxRecDepth 1000000 in
/-- C9 fails on the freshly constructed item with initial value `x.cfg` and a
listing of 257 names in which `x.cfg` sorts last: activation finds the current
value at index 256, stores 256 mod 256 = 0 in the `unsigned char` setting,
and deactivation commits the first candidate `aa` instead of `x.cfg`. -/
theorem C9_current_not_restored :
    currentValue (sampleFilesItem "x.cfg" false) = some "x.cfg" ∧
    (beginItem_files (sampleFs (some (manyNames ++ ["x.cfg"]))) sampleProcess
        (sampleFilesItem "x.cfg" false)).2.map
      (fun r => ((candidatePaths r.1).length, (candidatePaths r.1)[256]?, r.1.setting))
      = some (257, some "x.cfg", 0) ∧
    ((beginItem_files (sampleFs (some (manyNames ++ ["x.cfg"]))) sampleProcess
        (sampleFilesItem "x.cfg" false)).2.bind
      (fun r => endItem_files r.1 false)).map currentValue = some (some "aa") := by
  decide

set_option maxRecDepth 1000000 in
/-- C10 fails on a listing of 256 names that does not contain the initial
value: activation reports success with 257 candidates, and the `unsigned char`
maximum becomes 256 mod 256 = 0 instead of 256. -/
theorem C10_maximum_truncated :
    (beginItem_files (sampleFs (some manyNames)) sampleProcess
        (sampleFilesItem "x.cfg" false)).2.map
      (fun r => (r.2, (candidatePaths r.1).length, r.1.maximum)) = some (true, 257, 0) := by
  decide

set_option maxRecDepth 1000000 in
/-- C11 fails on the freshly constructed item with initial value `x.cfg` and a
listing of 257 names in which `x.cfg` sorts last: the first candidate equal to
the current value is at index 256, and the `unsigned char` setting after
activation is 256 mod 256 = 0. -/
theorem C11_setting_truncated :
    (beginItem_files (sampleFs (some (manyNames ++ ["x.cfg"]))) sampleProcess
        (sampleFilesItem "x.cfg" false)).2.map
      (fun r => (currentValue r.1,
        (candidatePaths r.1).findIdx? (fun p => decide (p = "x.cfg")), r.1.setting))
      = some (some "x.cfg", some 256, 0) := by
  decide

/-- C12: when `changeMenuItemScaled` computes `value`, it returns failure with
the item as before the call if the `changed` callback rejects `value`, and
returns success with the setting `value` if there is no callback or the
callback accepts `value`. -/
theorem C12_scaled_veto (rescaleInteger : Int → Int → Int → Option Int) (item : MenuItem)
    (index count value : Nat)
    (hvalue : scaledSetting rescaleInteger item index count = some value) :
    ((∃ changed, item.changed = some changed ∧ changed value = false) →
      changeMenuItemScaled rescaleInteger item index count = some (item, false)) ∧
    ((item.changed = none ∨ ∃ changed, item.changed = some changed ∧ changed value = true) →
      changeMenuItemScaled rescaleInteger item index count
        = some ({ item with setting := value }, true)) := by
  unfold changeMenuItemScaled
  rw [hvalue]
  simp only
  constructor
  · rintro ⟨changed, h1, h2⟩
    have hv : vetoed item.toMenuItemData value = true := by
      unfold vetoed; rw [h1]; simp [h2]
    rw [if_pos hv]
  · intro h
    have hv : ¬ (vetoed item.toMenuItemData value = true) := by
      unfold vetoed
      rcases h with h | ⟨changed, h1, h2⟩
      · rw [h]; simp
      · rw [h1]; simp [h2]
    rw [if_neg hv]

/-- C12 on the three-valued item whose callback rejects 2: index 5 computes 2
and the call fails with the item unchanged; index 4 computes 1 and
succeeds. -/
theorem C12_scaled_veto_witness :
    scaledSetting sampleRescale (sampleStringsItem (some (fun v => decide (v ≠ 2)))) 5 10 = some 2 ∧
    changeMenuItemScaled sampleRescale (sampleStringsItem (some (fun v => decide (v ≠ 2)))) 5 10
      = some (sampleStringsItem (some (fun v => decide (v ≠ 2))), false) ∧
    changeMenuItemScaled sampleRescale (sampleStringsItem (some (fun v => decide (v ≠ 2)))) 4 10
      = some ({ sampleStringsItem (some (fun v => decide (v ≠ 2))) with setting := 1 }, true) :=
  ⟨rfl,
    (C12_scaled_veto sampleRescale (sampleStringsItem (some (fun v => decide (v ≠ 2)))) 5 10 2
      rfl).1 ⟨_, rfl, by decide⟩,
    (C12_scaled_veto sampleRescale (sampleStringsItem (some (fun v => decide (v ≠ 2)))) 4 10 1
      rfl).2 (Or.inr ⟨_, rfl, by decide⟩)⟩

/-- C13: on an item whose `getValue` is not `getValue_numeric`, with no `changed`
callback or one that accepts the value, `changeMenuItemScaled` returns success
with the setting `index mod (maximum + 1)`, which is at most `maximum`. -/
theorem C13_scaled_modulo (rescaleInteger : Int → Int → Int → Option Int) (item : MenuItem)
    (index count : Nat)
    (hkind : item.methods.getValue ≠ GetValue.getValue_numeric)
    (hbyte : item.maximum < 256)
    (haccept : item.changed = none ∨
      ∃ changed, item.changed = some changed ∧ changed (index % (item.maximum + 1)) = true) :
    changeMenuItemScaled rescaleInteger item index count
      = some ({ item with setting := index % (item.maximum + 1) }, true) ∧
    index % (item.maximum + 1) ≤ item.maximum := by
  have hlt : index % (item.maximum + 1) < item.maximum + 1 := Nat.mod_lt _ (by omega)
  have hval : scaledSetting rescaleInteger item index count
      = some (index % (item.maximum + 1)) := by
    unfold scaledSetting
    rw [if_neg hkind, Nat.mod_eq_of_lt (a := index % (item.maximum + 1)) (by omega)]
  have hv : ¬ (vetoed item.toMenuItemData (index % (item.maximum + 1)) = true) := by
    unfold vetoed
    rcases haccept with h | ⟨changed, h1, h2⟩
    · rw [h]; simp
    · rw [h1]; simp [h2]
  refine ⟨?_, by omega⟩
  unfold changeMenuItemScaled
  rw [hval]
  simp only
  rw [if_neg hv]

/-- C13 on the enumerated item with three values: index 5 ends with setting
2. -/
theorem C13_scaled_modulo_witness :
    (sampleStringsItem none).maximum = 2 ∧
    changeMenuItemScaled sampleRescale (sampleStringsItem none) 5 10
      = some ({ sampleStringsItem none with setting := 2 }, true) ∧
    5 % ((sampleStringsItem none).maximum + 1) ≤ (sampleStringsItem none).maximum :=
  ⟨by decide,
    C13_scaled_modulo sampleRescale (sampleStringsItem none) 5 10 (by decide) (by decide)
      (Or.inl rfl)⟩

/-- C14: with the cursor at or past `count`, in particular on an empty menu,
`setMenuNextItem` returns failure and leaves the menu as it was. -/
theorem C14_next_past_end (menu : Menu) (fuel : Nat) (h : menu.index ≥ menu.count) :
    setMenuNextItem fuel menu = some (menu, false) := by
  unfold setMenuNextItem
  rw [if_pos h]

/-- C14 on the empty menu and on a two-item menu with the cursor at 2. -/
theorem C14_next_past_end_witness :
    setMenuNextItem 0 newMenu = some (newMenu, false) ∧
    setMenuNextItem 5 (sampleMenu [none, none] 2) = some (sampleMenu [none, none] 2, false) :=
  ⟨C14_next_past_end newMenu 0 (by decide),
    C14_next_past_end (sampleMenu [none, none] 2) 5 (by decide)⟩

/-- C15, as stated, fails: when the directory cannot be entered, activation
makes no `fchdir` call at all; and when the `fchdir` call fails, activation
returns in the entered directory. -/
theorem C15_counterexample :
    ¬ ((beginItem_files unreadableFs sampleProcess (sampleFilesItem "foo.cfg" false)).1.calls.count
        Syscall.fchdir = 1) ∧
    ¬ ((beginItem_files stuckFs sampleProcess (sampleFilesItem "foo.cfg" false)).1.cwd
        = sampleProcess.cwd) := by
  decide

/-- C15, amended: activation of a file-selection item appends its system calls
to the trace.  When the working directory was opened and the directory
entered, whatever `glob` returns, there is exactly one `fchdir` call, and the
working directory on return is the one before the call provided that `fchdir`
succeeds.  When opening the working directory or entering the directory
fails, there is no `fchdir` call and the working directory is the one before
the call. -/
theorem C15_restore (fs : FileSystem) (proc : Process) (item : MenuItemData)
    (files : FileData) (hdata : item.data = ItemData.files files) :
    ∃ trace, (beginItem_files fs proc item).1.calls = proc.calls ++ trace ∧
      ((fs.openOk = true ∧ fs.chdir proc.cwd files.directory ≠ none) →
        trace.count Syscall.fchdir = 1 ∧
        (fs.fchdirOk = true → (beginItem_files fs proc item).1.cwd = proc.cwd)) ∧
      ((fs.openOk = false ∨ fs.chdir proc.cwd files.directory = none) →
        trace.count Syscall.fchdir = 0 ∧
        (beginItem_files fs proc item).1.cwd = proc.cwd) := by
  rw [beginItem_files_process fs proc item files hdata]
  by_cases hent : fs.openOk = true ∧ fs.chdir proc.cwd files.directory ≠ none
  · obtain ⟨hopen, hch⟩ := hent
    obtain ⟨dir, hdir⟩ := Option.ne_none_iff_exists'.mp hch
    obtain ⟨h1, h2, _⟩ := enumerateFiles_entered fs proc files dir hopen hdir
    refine ⟨_, h1, fun _ => ⟨by simp, h2⟩, ?_⟩
    rintro (h | h)
    · rw [hopen] at h; cases h
    · exact absurd h hch
  · have hnot : fs.openOk = false ∨ fs.chdir proc.cwd files.directory = none := by
      cases hopen : fs.openOk with
      | false => exact Or.inl rfl
      | true =>
        right
        by_contra hc
        exact hent ⟨hopen, hc⟩
    obtain ⟨h1, h2⟩ := enumerateFiles_not_entered fs proc files hnot
    rcases h1 with h1 | h1
    · exact ⟨_, h1, fun h => absurd h hent, fun _ => ⟨by simp, h2⟩⟩
    · exact ⟨_, h1, fun h => absurd h hent, fun _ => ⟨by simp, h2⟩⟩

/-- C15, amended, on a listing that matches, on a failing `glob` and on a
directory that cannot be entered. -/
theorem C15_restore_witness :
    (sampleFilesItem "foo.cfg" false).data = ItemData.files
      { directory := "/etc/brltty", extension := ".cfg", pattern := "*.cfg"
        initial := "foo.cfg", current := some "foo.cfg", none := false, paths := [] } ∧
    (beginItem_files (sampleFs (some ["bar.cfg"])) sampleProcess
        (sampleFilesItem "foo.cfg" false)).1
      = { cwd := "/home", log := []
          calls := [Syscall.openCwd, Syscall.chdir "/etc/brltty", Syscall.glob "*.cfg",
            Syscall.fchdir, Syscall.close] } ∧
    (beginItem_files (sampleFs none) sampleProcess (sampleFilesItem "foo.cfg" false)).1.cwd
      = "/home" ∧
    (beginItem_files unreadableFs sampleProcess (sampleFilesItem "foo.cfg" false)).1.cwd
      = "/home" :=
  ⟨by decide, by decide,
    ((C15_restore (sampleFs none) sampleProcess (sampleFilesItem "foo.cfg" false) _
      rfl).choose_spec.2.1 ⟨rfl, by decide⟩).2 rfl,
    ((C15_restore unreadableFs sampleProcess (sampleFilesItem "foo.cfg" false) _
      rfl).choose_spec.2.2 (Or.inr rfl)).2⟩

/-- C16: on a menu with the cursor `c` below `count` and at least one item that
passes `testMenuItem`, `setMenuNextItem` returns success with the cursor at
`(c + k) mod count` for the smallest `k` in `1..count` whose item passes, and
`setMenuPreviousItem` returns success with the cursor at `(c - k) mod count`
for the smallest such `k`; when exactly one item passes, both land on it. -/
theorem C16_next_previous_nearest (menu : Menu) (fuel : Nat)
    (hcount : menu.count < 2 ^ 32) (hc : menu.index < menu.count)
    (hsome : ∃ e, testMenuItem menu e = true) (hfuel : menu.count ≤ fuel) :
    (∃ k, 1 ≤ k ∧ k ≤ menu.count ∧
      testMenuItem menu ((menu.index + k) % menu.count) = true ∧
      (∀ j, 1 ≤ j → j < k → testMenuItem menu ((menu.index + j) % menu.count) = false) ∧
      setMenuNextItem fuel menu
        = some ({ menu with index := (menu.index + k) % menu.count }, true)) ∧
    (∃ k, 1 ≤ k ∧ k ≤ menu.count ∧
      testMenuItem menu ((menu.index + menu.count - k) % menu.count) = true ∧
      (∀ j, 1 ≤ j → j < k →
        testMenuItem menu ((menu.index + menu.count - j) % menu.count) = false) ∧
      setMenuPreviousItem fuel menu
        = some ({ menu with index := (menu.index + menu.count - k) % menu.count }, true)) ∧
    (∀ e, (∀ i, testMenuItem menu i = true ↔ i = e) →
      setMenuNextItem fuel menu = some ({ menu with index := e }, true) ∧
      setMenuPreviousItem fuel menu = some ({ menu with index := e }, true)) := by
  obtain ⟨k, hk1, hk2, hk3, hk4, hk5⟩ :=
    setMenuNextItem_nearest menu fuel hcount hc hsome hfuel
  obtain ⟨m, hm1, hm2, hm3, hm4, hm5⟩ :=
    setMenuPreviousItem_nearest menu fuel hc hsome hfuel
  refine ⟨⟨k, hk1, hk2, ?_, ?_, ?_⟩, ⟨m, hm1, hm2, ?_, ?_, ?_⟩, ?_⟩
  · rw [← wrapForward_eq_mod _ _ _ hc hk2]; exact hk3
  · intro j hj1 hj2
    rw [← wrapForward_eq_mod _ _ _ hc (by omega)]; exact hk4 j hj1 hj2
  · rw [← wrapForward_eq_mod _ _ _ hc hk2]; exact hk5
  · rw [← wrapBackward_eq_mod _ _ _ hc hm2]; exact hm3
  · intro j hj1 hj2
    rw [← wrapBackward_eq_mod _ _ _ hc (by omega)]; exact hm4 j hj1 hj2
  · rw [← wrapBackward_eq_mod _ _ _ hc hm2]; exact hm5
  · intro e he
    have h1 : wrapForward menu.count menu.index k = e := (he _).mp hk3
    have h2 : wrapBackward menu.count menu.index m = e := (he _).mp hm3
    rw [hk5, hm5, h1, h2]
    exact ⟨rfl, rfl⟩

/-- C16 on a four-item menu whose items 1 and 3 pass, with the cursor on item
1: the next item is 3 and the previous item is 3, reached by wrapping. -/
theorem C16_next_previous_nearest_witness :
    (sampleMenu [some false, none, some false, some true] 1).index
      < (sampleMenu [some false, none, some false, some true] 1).count ∧
    (∃ k, 1 ≤ k ∧ k ≤ 4 ∧
      setMenuNextItem 4 (sampleMenu [some false, none, some false, some true] 1)
        = some ({ sampleMenu [some false, none, some false, some true] 1 with
            index := (1 + k) % 4 }, true)) ∧
    setMenuNextItem 4 (sampleMenu [some false, none, some false, some true] 1)
      = some (sampleMenu [some false, none, some false, some true] 3, true) ∧
    setMenuPreviousItem 4 (sampleMenu [some false, none, some false, some true] 1)
      = some (sampleMenu [some false, none, some false, some true] 3, true) :=
  ⟨by decide,
    (C16_next_previous_nearest (sampleMenu [some false, none, some false, some true] 1) 4
      (by decide) (by decide) ⟨1, by decide⟩ (by decide)).1.elim
      (fun k hk => ⟨k, hk.1, hk.2.1, hk.2.2.2.2⟩),
    rfl, rfl⟩
/-- C17: on a menu with at least one item that passes `testMenuItem`, from any
cursor, `setMenuFirstItem` returns success with the cursor on the smallest
index that passes and `setMenuLastItem` returns success with the cursor on the
largest index that passes. -/
theorem C17_first_last (menu : Menu) (fuel : Nat)
    (hcount : menu.count < 2 ^ 32)
    (hsome : ∃ e, testMenuItem menu e = true) (hfuel : menu.count ≤ fuel) :
    (∃ first, testMenuItem menu first = true ∧
      (∀ i, testMenuItem menu i = true → first ≤ i) ∧
      setMenuFirstItem fuel menu = some ({ menu with index := first }, true)) ∧
    (∃ last, testMenuItem menu last = true ∧
      (∀ i, testMenuItem menu i = true → i ≤ last) ∧
      setMenuLastItem fuel menu = some ({ menu with index := last }, true)) := by
  classical
  obtain ⟨e, he⟩ := hsome
  have hlt := testMenuItem_lt menu e he
  have hne : menu.count ≠ 0 := by omega
  constructor
  · -- the smallest index that passes
    have hex : ∃ i, testMenuItem menu i = true := ⟨e, he⟩
    have hf := Nat.find_spec hex
    have hmin := fun j => @Nat.find_min _ _ hex j
    generalize Nat.find hex = first at hf hmin
    have hflt := testMenuItem_lt menu first hf
    have hleast : ∀ i, testMenuItem menu i = true → first ≤ i := by
      intro i hi
      by_contra hcon
      exact hmin i (by omega) hi
    refine ⟨first, hf, hleast, ?_⟩
    unfold setMenuFirstItem
    rw [if_neg hne]
    simp only
    rw [testMenuItem_index]
    by_cases h0 : testMenuItem menu 0 = true
    · have : first = 0 := by have := hleast 0 h0; omega
      rw [if_pos h0, this]
    · rw [if_neg h0]
      have hpos : 1 ≤ first := by
        rcases Nat.eq_zero_or_pos first with h | h
        · rw [h] at hf; exact absurd hf h0
        · exact h
      have hw : ∀ j, j < menu.count → wrapForward menu.count 0 j = j := by
        intro j hj
        unfold wrapForward
        split <;> omega
      unfold setMenuNextItem
      have hguard : ¬ (({ menu with index := 0 } : Menu).index
          ≥ ({ menu with index := 0 } : Menu).count) := by
        show ¬ (0 ≥ menu.count)
        omega
      rw [if_neg hguard,
        setMenuNextItemLoop_first fuel { menu with index := 0 } first hcount
          (by show 0 < menu.count; omega) hpos (by show first ≤ menu.count; omega) (by omega)
          (by
            show testMenuItem { menu with index := 0 } (wrapForward menu.count 0 first) = true
            rw [testMenuItem_index, hw first hflt]; exact hf)
          (by
            intro j hj1 hj2
            show testMenuItem { menu with index := 0 } (wrapForward menu.count 0 j) = false
            rw [testMenuItem_index, hw j (by omega)]
            cases ht : testMenuItem menu j with
            | false => rfl
            | true => exact absurd ht (hmin j hj2))]
      show some (({ menu with index := wrapForward menu.count 0 first } : Menu), true) = _
      rw [hw first hflt]
  · -- the largest index that passes, by its distance from the last item
    have hex : ∃ d, d ≤ menu.count - 1 ∧ testMenuItem menu (menu.count - 1 - d) = true := by
      refine ⟨menu.count - 1 - e, by omega, ?_⟩
      have : menu.count - 1 - (menu.count - 1 - e) = e := by omega
      rw [this]; exact he
    have hf := Nat.find_spec hex
    have hmin := fun j => @Nat.find_min _ _ hex j
    generalize Nat.find hex = d at hf hmin
    obtain ⟨hd1, hd2⟩ := hf
    have hgreatest : ∀ i, testMenuItem menu i = true → i ≤ menu.count - 1 - d := by
      intro i hi
      have hilt := testMenuItem_lt menu i hi
      by_contra hcon
      apply hmin (menu.count - 1 - i) (by omega)
      refine ⟨by omega, ?_⟩
      have : menu.count - 1 - (menu.count - 1 - i) = i := by omega
      rw [this]; exact hi
    refine ⟨menu.count - 1 - d, hd2, hgreatest, ?_⟩
    unfold setMenuLastItem
    rw [if_neg hne]
    simp only
    rw [testMenuItem_index]
    by_cases h0 : testMenuItem menu (menu.count - 1) = true
    · have : d = 0 := by
        rcases Nat.eq_zero_or_pos d with h | h
        · exact h
        · exact absurd ⟨by omega, h0⟩ (hmin 0 h)
      rw [if_pos h0, this]
      rfl
    · rw [if_neg h0]
      have hpos : 1 ≤ d := by
        rcases Nat.eq_zero_or_pos d with h | h
        · rw [h] at hd2; exact absurd hd2 h0
        · exact h
      have hw : ∀ j, j ≤ menu.count - 1 →
          wrapBackward menu.count (menu.count - 1) j = menu.count - 1 - j := by
        intro j hj
        unfold wrapBackward
        split <;> omega
      rw [setMenuPreviousItem_first fuel { menu with index := menu.count - 1 } d
          (by show menu.count - 1 < menu.count; omega) hpos
          (by show d ≤ menu.count; omega) (by omega)
          (by
            show testMenuItem { menu with index := menu.count - 1 }
              (wrapBackward menu.count (menu.count - 1) d) = true
            rw [testMenuItem_index, hw d hd1]; exact hd2)
          (by
            intro j hj1 hj2
            show testMenuItem { menu with index := menu.count - 1 }
              (wrapBackward menu.count (menu.count - 1) j) = false
            rw [testMenuItem_index, hw j (by omega)]
            cases ht : testMenuItem menu (menu.count - 1 - j) with
            | false => rfl
            | true => exact absurd ⟨by omega, ht⟩ (hmin j hj2))]
      show some (({ menu with
        index := wrapBackward menu.count (menu.count - 1) d } : Menu), true) = _
      rw [hw d hd1]

/-- C17 on a five-item menu whose items 1 and 3 pass, with the cursor on item
4: the first item is 1 and the last item is 3. -/
theorem C17_first_last_witness :
    (sampleMenu [some false, none, some false, some true, some false] 4).count < 2 ^ 32 ∧
    setMenuFirstItem 5 (sampleMenu [some false, none, some false, some true, some false] 4)
      = some (sampleMenu [some false, none, some false, some true, some false] 1, true) ∧
    setMenuLastItem 5 (sampleMenu [some false, none, some false, some true, some false] 4)
      = some (sampleMenu [some false, none, some false, some true, some false] 3, true) ∧
    ∃ first, testMenuItem (sampleMenu [some false, none, some false, some true, some false] 4)
        first = true ∧
      setMenuFirstItem 5 (sampleMenu [some false, none, some false, some true, some false] 4)
        = some ({ sampleMenu [some false, none, some false, some true, some false] 4 with
            index := first }, true) :=
  ⟨by decide, rfl, rfl,
    (C17_first_last (sampleMenu [some false, none, some false, some true, some false] 4) 5
      (by decide) ⟨1, by decide⟩ (by decide)).1.elim
      (fun first h => ⟨first, h.1, h.2.2⟩)⟩

/-- C18: from a setting inside the bounds and a non-zero divisor, each of
`changeMenuItemNext` and `changeMenuItemPrevious` returns, and on success the
new setting is the value met after `j` steps of the upward (resp. downward)
walk with wraparound, for the first `j ≥ 1` whose value is a multiple of the
divisor and accepted by the `changed` callback; the values met on the steps
before it are not acceptable. -/
theorem C18_first_acceptable (item : MenuItemData) (fuel : Nat)
    (hmin : item.minimum ≤ item.setting) (hmax : item.setting ≤ item.maximum)
    (hbyte : item.maximum < 256) (hdiv : 1 ≤ item.divisor)
    (hfuel : item.maximum - item.minimum + 1 ≤ fuel) :
    (∃ v status, changeMenuItemNext fuel item
        = Outcome.done ({ item with setting := v }, status) ∧
      (status = true → ∃ j, 1 ≤ j ∧ j < item.maximum - item.minimum + 1 ∧
        v = walkUp item j ∧ accepts item (walkUp item j) ∧
        ∀ i, 1 ≤ i → i < j → ¬ accepts item (walkUp item i))) ∧
    (∃ v status, changeMenuItemPrevious fuel item
        = Outcome.done ({ item with setting := v }, status) ∧
      (status = true → ∃ j, 1 ≤ j ∧ j < item.maximum - item.minimum + 1 ∧
        v = walkDown item j ∧ accepts item (walkDown item j) ∧
        ∀ i, 1 ≤ i → i < j → ¬ accepts item (walkDown item i))) := by
  constructor
  · obtain ⟨v, status, heq, hcase⟩ := adjustMenuItem_spec incrementMenuItem
      (incrementedSetting item) item fuel settingOnly_increment
      (increment_iterate item hmin hmax hbyte) (by omega) hdiv hfuel
    refine ⟨v, status, heq, ?_⟩
    intro hs
    rcases hcase with ⟨_, j, hj1, hj2, hv, hacc, hrej⟩ | ⟨hf, _⟩
    · refine ⟨j, hj1, hj2, ?_, ?_, ?_⟩
      · rw [walkUp_eq item hmin hmax j (by omega)]; exact hv
      · rw [walkUp_eq item hmin hmax j (by omega)]; exact hacc
      · intro i hi1 hi2
        rw [walkUp_eq item hmin hmax i (by omega)]; exact hrej i hi1 hi2
    · rw [hs] at hf; cases hf
  · obtain ⟨v, status, heq, hcase⟩ := adjustMenuItem_spec decrementMenuItem
      (decrementedSetting item) item fuel settingOnly_decrement
      (decrement_iterate item hmin hmax hbyte) (by omega) hdiv hfuel
    refine ⟨v, status, heq, ?_⟩
    intro hs
    rcases hcase with ⟨_, j, hj1, hj2, hv, hacc, hrej⟩ | ⟨hf, _⟩
    · refine ⟨j, hj1, hj2, ?_, ?_, ?_⟩
      · rw [walkDown_eq item hmin hmax j (by omega)]; exact hv
      · rw [walkDown_eq item hmin hmax j (by omega)]; exact hacc
      · intro i hi1 hi2
        rw [walkDown_eq item hmin hmax i (by omega)]; exact hrej i hi1 hi2
    · rw [hs] at hf; cases hf

/-- C18 on the item with setting 8 in 0..9, divisor 3 and a callback that
rejects 9: the upward walk meets 9 and 0 and stops on 0, the downward walk
meets 7 and stops on 6. -/
theorem C18_first_acceptable_witness :
    (sampleSetting 8 0 9 3 (some (fun v => decide (v ≠ 9)))).minimum ≤ 8 ∧
    changeMenuItemNext 10 (sampleSetting 8 0 9 3 (some (fun v => decide (v ≠ 9))))
      = Outcome.done (sampleSetting 0 0 9 3 (some (fun v => decide (v ≠ 9))), true) ∧
    walkUp (sampleSetting 8 0 9 3 (some (fun v => decide (v ≠ 9)))) 2 = 0 ∧
    changeMenuItemPrevious 10 (sampleSetting 8 0 9 3 (some (fun v => decide (v ≠ 9))))
      = Outcome.done (sampleSetting 6 0 9 3 (some (fun v => decide (v ≠ 9))), true) ∧
    ∃ v status, changeMenuItemPrevious 10 (sampleSetting 8 0 9 3 (some (fun v => decide (v ≠ 9))))
        = Outcome.done
          ({ sampleSetting 8 0 9 3 (some (fun v => decide (v ≠ 9))) with setting := v }, status) ∧
      (status = true → ∃ j, 1 ≤ j ∧ j < 10 ∧
        v = walkDown (sampleSetting 8 0 9 3 (some (fun v => decide (v ≠ 9)))) j) :=
  ⟨by decide, rfl, by decide, rfl,
    (C18_first_acceptable (sampleSetting 8 0 9 3 (some (fun v => decide (v ≠ 9)))) 10
      (by decide) (by decide) (by decide) (by decide) (by decide)).2.elim
      (fun v h => h.elim (fun status hs =>
        ⟨v, status, hs.1, fun ht => (hs.2 ht).elim
          (fun j hj => ⟨j, hj.1, hj.2.1, hj.2.2.1⟩)⟩))⟩

set_option maxRecDepth 1000000 in
/-- C19 fails on the freshly constructed item with initial value `pp` and a
listing of 257 names in which `pp` is at index 255: right after activation,
before any stepping call, the setting is 255 and the `unsigned char` maximum
is 256 mod 256 = 0, so the setting is above the maximum; it is still below
the candidate list size 257. -/
theorem C19_setting_above_maximum :
    (beginItem_files (sampleFs (some (manyNames ++ ["x.cfg"]))) sampleProcess
        (sampleFilesItem "pp" false)).2.map
      (fun r => ((candidatePaths r.1).length, r.1.setting, r.1.maximum,
        getValue_files r.1 true)) = some (257, 255, 0, some "pp") := by
  decide

/-- C20: in every state reachable from `newMenu` by item appends and returning
navigation calls (and returning `getCurrentMenuItem` calls as well), the
cursor is at most `count` and is below `count` on a non-empty menu.  Hence
`getMenuItem` finds the item at the cursor on every non-empty menu, on an
empty menu no item is active and `getCurrentMenuItem` returns `NULL` without
a hook call, and `getCurrentMenuItem` never calls `beginMenuItem` on `NULL`:
when the cursor has no item, the item sought and the active item are both
`NULL`. -/
theorem C20_cursor_in_range (menu : Menu) (hreach : Reachable menu) :
    menu.index ≤ menu.count ∧
    (menu.count ≠ 0 → menu.index < menu.count ∧
      getMenuItem menu menu.index = some { block := menu.array, index := menu.index } ∧
      ∃ item, itemAt menu { block := menu.array, index := menu.index } = some item) ∧
    (menu.count = 0 → menu.activeItem = none ∧
      getCurrentMenuItem menu = some (menu, none, [])) ∧
    (getMenuItem menu menu.index = none →
      menu.activeItem = getMenuItem menu menu.index) := by
  have hok := reachable_cursorOk menu hreach
  have hact := reachable_activeItem menu hreach
  have hempty : menu.count = 0 → menu.activeItem = none := by
    intro h0
    cases ha : menu.activeItem with
    | none => rfl
    | some p => have := hact p ha; omega
  unfold CursorOk at hok
  refine ⟨by omega, ?_, ?_, ?_⟩
  · intro hne
    have hlt : menu.index < menu.count := by omega
    refine ⟨hlt, ?_, ?_⟩
    · unfold getMenuItem
      rw [if_pos hlt]
    · rw [itemAt_current]
      exact ⟨_, List.getElem?_eq_getElem hlt⟩
  · intro h0
    have hget : getMenuItem menu menu.index = none := by
      unfold getMenuItem
      rw [if_neg (by omega)]
    have := getCurrentMenuItem_same menu (by rw [hget, hempty h0])
    rw [hget] at this
    exact ⟨hempty h0, this⟩
  · intro hnone
    have h0 : menu.count = 0 := by
      unfold getMenuItem at hnone
      split at hnone
      · cases hnone
      · omega
    rw [hnone, hempty h0]

/-- C20 on the menu reached by appending two items, the first of them
ineligible, and calling `setMenuLastItem` and `setMenuNextItem`: the cursor is
on the second item. -/
theorem C20_cursor_in_range_witness :
    Reachable (sampleMenu [some false, none] 1) ∧
    (sampleMenu [some false, none] 1).index ≤ (sampleMenu [some false, none] 1).count ∧
    ((sampleMenu [some false, none] 1).count ≠ 0 →
      (sampleMenu [some false, none] 1).index < (sampleMenu [some false, none] 1).count ∧
      getMenuItem (sampleMenu [some false, none] 1) (sampleMenu [some false, none] 1).index
        = some { block := (sampleMenu [some false, none] 1).array
                 index := (sampleMenu [some false, none] 1).index } ∧
      ∃ item, itemAt (sampleMenu [some false, none] 1)
        { block := (sampleMenu [some false, none] 1).array
          index := (sampleMenu [some false, none] 1).index } = some item) :=
  have hreach : Reachable (sampleMenu [some false, none] 1) :=
    Reachable.next _ _ 2 true
      (Reachable.last _ (sampleMenu [some false, none] 1) 2 true
        (Reachable.append _ (sampleItem none) 1
          (Reachable.append _ (sampleItem (some false)) 1 Reachable.newMenu))
        rfl)
      rfl
  ⟨hreach, (C20_cursor_in_range _ hreach).1, (C20_cursor_in_range _ hreach).2.1⟩

end Brltty
